import Mathlib

/-!
# libre-dms: document query controller and editor autosave

A shallow embedding of `server/controllers/documents.js` (`create` and the queries that
`list`, `listByUser` and `search` hand to `Document.findAndCountAll`), of
`client/components/editor/DocumentEditor.jsx` (`saveChanges`,
`componentWillReceiveProps`) and of `client/components/main/Main.jsx`
(`onDocumentSearchChange`, `refreshFeeds`), with the properties proved about them.

Where-objects are kept as data (column names, operators, operands) exactly as the
controller writes them, and are given meaning by an evaluator over table rows.
-/

namespace LibreDms

/-! ## Values, rows and where-objects -/

/-- A column value: text, integer or SQL NULL. -/
inductive Value where
  | str (s : String)
  | int (n : Int)
  | null
  deriving DecidableEq, Repr

/-- A row of the Documents table: column name to value (NULL when absent). -/
abbrev Row := String → Value

/-- Lower-casing used by the case-insensitive comparison. Only the letters `A` to `Z` are
folded; the database also folds letters outside ASCII, according to its locale. -/
def lowerChars (s : String) : List Char := s.toList.map Char.toLower

/-- A token of a LIKE pattern. -/
inductive Tok where
  | anyRun
  | anyOne
  | lit (c : Char)
  deriving DecidableEq, Repr

/-- Reading of a LIKE pattern: `%` is any run of characters, `_` any one character, a
backslash makes the next pattern character literal. A pattern that ends in a lone
backslash is rejected by the database and has no reading. -/
def tokens : List Char → Option (List Tok)
  | [] => some []
  | c :: rest =>
    if c = '%' then (tokens rest).map (Tok.anyRun :: ·)
    else if c = '_' then (tokens rest).map (Tok.anyOne :: ·)
    else if c = '\\' then
      match rest with
      | [] => none
      | e :: rest' => (tokens rest').map (Tok.lit e :: ·)
    else (tokens rest).map (Tok.lit c :: ·)

/-- Matching of a tokenised pattern against the whole text. -/
def matchToks : List Tok → List Char → Bool
  | [], t => t.isEmpty
  | .anyRun :: p, t => t.tails.any (matchToks p)
  | .anyOne :: p, t =>
    match t with
    | [] => false
    | _ :: t' => matchToks p t'
  | .lit c :: p, t =>
    match t with
    | [] => false
    | d :: t' => c == d && matchToks p t'

/-- LIKE matching over characters; a pattern with no reading matches nothing. -/
def likeMatch (pattern text : List Char) : Bool :=
  match tokens pattern with
  | none => false
  | some p => matchToks p text

/-- The `$iLike` operator: LIKE on the lower-cased pattern and text. -/
def iLike (pattern text : String) : Bool :=
  likeMatch (lowerChars pattern) (lowerChars text)

/-- The right-hand side of a column entry of a where-object. -/
inductive Cond where
  | eq (v : Value)
  | gte (v : Value)
  | iLike (pattern : String)
  deriving DecidableEq, Repr

/-- A plain object of column entries, such as `{ userRole: { $gte: r }, access: 'role' }`:
all entries must hold. -/
abbrev Clause := List (String × Cond)

/-- One key of the top-level where-object: a column entry or the `$or` key. -/
inductive Entry where
  | col (name : String) (c : Cond)
  | or (alts : List Clause)
  deriving DecidableEq, Repr

/-- A where-object: all keys must hold; `{}` holds of every row. -/
abbrev WhereObj := List Entry

/-- The `>=` comparison of a column value with an operand; it holds only between integers. -/
def Value.gte : Value → Value → Bool
  | .int a, .int b => decide (b ≤ a)
  | _, _ => false

def Cond.holds (c : Cond) (v : Value) : Bool :=
  match c with
  | .eq w => decide (v = w)
  | .gte w => v.gte w
  | .iLike p =>
    match v with
    | .str s => LibreDms.iLike p s
    | _ => false

def Clause.holds (cl : Clause) (row : Row) : Bool :=
  cl.all fun e => e.2.holds (row e.1)

def Entry.holds (e : Entry) (row : Row) : Bool :=
  match e with
  | .col name c => c.holds (row name)
  | .or alts => alts.any fun cl => cl.holds row

def WhereObj.holds (w : WhereObj) (row : Row) : Bool :=
  w.all fun e => e.holds row

/-- The column names a where-object mentions. -/
def WhereObj.columns (w : WhereObj) : List String :=
  w.flatMap fun e =>
    match e with
    | .col name _ => [name]
    | .or alts => alts.flatMap fun cl => cl.map Prod.fst

/-! ## Requests -/

/-- The decoded token: `req.decoded`. -/
structure Decoded where
  id : String
  roleId : Int
  deriving DecidableEq, Repr

/-- The pagination and search options: `req.listOptions`. -/
structure ListOptions where
  limit : Nat
  offset : Nat
  query : String
  deriving DecidableEq, Repr

/-- The request as the controller reads it: `req.decoded`, `req.params.id`,
`req.listOptions`. -/
structure Req where
  decoded : Decoded
  paramsId : String
  listOptions : ListOptions
  deriving DecidableEq, Repr

/-- The role predicates imported from `../helpers`, whose rank constants are not part of
the controller. -/
structure Helpers where
  isSuperAdmin : Req → Bool
  isAdminOrHigher : Req → Bool

/-- Modelled from the spec: `isOwner` of `../helpers` is not in the controller; the spec
(4.1, 4.3) gives it as id equality between the requester and the target user. -/
def isOwner (req : Req) : Bool := decide (req.decoded.id = req.paramsId)

/-! ## The controller's where-objects -/

/-- The options object handed to `Document.findAndCountAll`. -/
structure FindOptions where
  attributes : List String
  whereClause : WhereObj
  includeModels : List (String × List String)
  order : List (String × String)
  limit : Nat
  offset : Nat
  deriving DecidableEq, Repr

/-- The `dbQuery` of `list`. -/
def listQuery (h : Helpers) (req : Req) : WhereObj :=
  if h.isAdminOrHigher req then []
  else
    [.or
      [ [("access", .eq (.str "public"))],
        [("userRole", .gte (.int req.decoded.roleId)), ("access", .eq (.str "role"))],
        [("userId", .eq (.str req.decoded.id))] ]]

/-- The query `list` runs. -/
def list (h : Helpers) (req : Req) : FindOptions :=
  { attributes := ["id", "title", "type", "access", "userId", "createdAt", "updatedAt"]
    whereClause := listQuery h req
    includeModels := [("User", ["id", "name", "roleId"])]
    order := [("updatedAt", "DESC")]
    limit := req.listOptions.limit
    offset := req.listOptions.offset }

/-- The `dbQuery` of `search`: the one of `list` with the `title` key set afterwards. -/
def searchQuery (h : Helpers) (req : Req) : WhereObj :=
  let dbQuery : WhereObj :=
    if h.isAdminOrHigher req then []
    else
      [.or
        [ [("access", .eq (.str "public"))],
          [("userRole", .gte (.int req.decoded.roleId)), ("access", .eq (.str "role"))],
          [("userId", .eq (.str req.decoded.id))] ]]
  dbQuery ++ [.col "title" (.iLike ("%" ++ req.listOptions.query ++ "%"))]

/-- The query `search` runs. -/
def search (h : Helpers) (req : Req) : FindOptions :=
  { attributes := ["id", "title", "type", "access", "userId", "createdAt", "updatedAt"]
    whereClause := searchQuery h req
    includeModels := [("User", ["id", "name", "roleId"])]
    order := [("updatedAt", "DESC")]
    limit := req.listOptions.limit
    offset := req.listOptions.offset }

/-- A row of the Users table as `listByUser` reads it; `deletedAt` is null for an active
user and a timestamp for a soft-deleted one. -/
structure User where
  id : String
  deletedAt : Option Nat
  deriving DecidableEq, Repr

/-- The `dbQuery` of `listByUser` at the time of the document query. -/
def listByUserQuery (h : Helpers) (req : Req) : WhereObj :=
  let dbQuery : WhereObj := [.col "userId" (.eq (.str req.paramsId))]
  if !h.isAdminOrHigher req && !isOwner req then
    dbQuery ++ [.or
      [ [("access", .eq (.str "public"))],
        [("userRole", .gte (.int req.decoded.roleId)), ("access", .eq (.str "role"))] ]]
  else dbQuery

/-- What a handler does next: answer with a status and a message, or run a document query
whose rows are then sent with status 200. -/
inductive Outcome where
  | respond (status : Nat) (message : String)
  | findAndCountAll (options : FindOptions)
  deriving DecidableEq, Repr

/-- The handler `listByUser`, given the result of `User.find` (`.error` when the lookup
rejects, `.ok none` when no record has the id). -/
def listByUser (h : Helpers) (req : Req) (lookup : Except String (Option User)) : Outcome :=
  match lookup with
  | .error _ => .respond 400 "Invalid user ID"
  | .ok none => .respond 404 "User not found"
  | .ok (some user) =>
    if user.deletedAt.isSome && !h.isSuperAdmin req then
      .respond 404 "This user has been deleted"
    else
      .findAndCountAll
        { attributes := ["id", "title", "type", "access", "createdAt", "updatedAt"]
          whereClause := listByUserQuery h req
          includeModels := []
          order := [("updatedAt", "DESC")]
          limit := req.listOptions.limit
          offset := req.listOptions.offset }

/-! ## The document query and the responses -/

/-- The tables the handlers read. -/
structure Tables where
  documents : List Row
  users : List Row

/-- The columns of a row that a query asks for, in the order asked. -/
def project (attributes : List String) (row : Row) : List (String × Value) :=
  attributes.map fun a => (a, row a)

/-- A row of a query result: the requested columns and, per included model, the requested
columns of the joined row (none when no row joins). -/
structure ResultRow where
  columns : List (String × Value)
  included : List (String × Option (List (String × Value)))
  deriving DecidableEq, Repr

/-- The result of `findAndCountAll`: the rows of the requested window and the number of
all matching rows. -/
structure Page where
  rows : List ResultRow
  count : Nat
  deriving DecidableEq, Repr

/-- Strict order of column values: integers by size, text lexicographically. -/
def Value.lt : Value → Value → Bool
  | .int a, .int b => decide (a < b)
  | .str a, .str b => decide (a < b)
  | _, _ => false

/-- Whether row `a` may stand before row `b` under an `order` option. -/
def precedes : List (String × String) → Row → Row → Bool
  | [], _, _ => true
  | (column, direction) :: rest, a, b =>
    if direction = "DESC" then
      if (b column).lt (a column) then true
      else if (a column).lt (b column) then false
      else precedes rest a b
    else
      if (a column).lt (b column) then true
      else if (b column).lt (a column) then false
      else precedes rest a b

def insertRow (order : List (String × String)) (r : Row) : List Row → List Row
  | [] => [r]
  | x :: xs => if precedes order r x then r :: x :: xs else x :: insertRow order r xs

/-- Rows in the order asked; rows that tie keep their table order. -/
def sortRows (order : List (String × String)) (rows : List Row) : List Row :=
  rows.foldr (insertRow order) []

/-- The join of an included model: the `User` row whose `id` is the document's `userId`.
The `User` model is paranoid, so a soft-deleted row (`deletedAt` not null) does not join. -/
def joined (t : Tables) (model : String) (row : Row) : Option Row :=
  if model = "User" then
    t.users.find? fun u => decide (u "id" = row "userId") && decide (u "deletedAt" = .null)
  else none

/-- A response that carries one document. -/
structure DocumentResponse where
  status : Nat
  body : List (String × Value)
  deriving DecidableEq, Repr

/-- The `.then` of `create`: status 201 with `formatDoc` of the document the store made.
`formatDoc` comes from `../helpers`, which is not part of the controller. -/
def createResponse (formatDoc : Row → List (String × Value)) (document : Row) :
    DocumentResponse :=
  { status := 201, body := formatDoc document }

/-- The handler `retrieve`: status 200 with `formatDoc` of the retrieved record. -/
def retrieve (formatDoc : Row → List (String × Value)) (retrievedRecord : Row) :
    DocumentResponse :=
  { status := 200, body := formatDoc retrievedRecord }

/-- The `.then` of `update`: status 200 with `formatDoc` of the updated document. -/
def updateResponse (formatDoc : Row → List (String × Value)) (document : Row) :
    DocumentResponse :=
  { status := 200, body := formatDoc document }

/-- The query `Document.findAndCountAll` as the handlers use it: filter by the
where-object, order, cut the window out, keep the requested columns. -/
def findAndCountAll (t : Tables) (o : FindOptions) : Page :=
  let matching := t.documents.filter fun r => o.whereClause.holds r
  { rows :=
      (((sortRows o.order matching).drop o.offset).take o.limit).map fun r =>
        { columns := project o.attributes r
          included := o.includeModels.map fun m => (m.1, (joined t m.1 r).map (project m.2)) }
    count := matching.length }

/-- The pagination metadata of a listing response. -/
structure Metadata where
  currentPage : Nat
  pageSize : Nat
  totalCount : Nat
  totalPages : Nat
  deriving DecidableEq, Repr

/-- Modelled from the spec: `getMetadata` of `../helpers` is not in the controller; the
spec (4.4) gives `currentPage = floor(offset / limit) + 1`, `pageSize = limit`,
`totalCount` and `totalPages = ceil(totalCount / limit)` from the total row count, the
limit and the offset. -/
def getMetadata (totalCount limit offset : Nat) : Metadata :=
  { currentPage := offset / limit + 1
    pageSize := limit
    totalCount := totalCount
    totalPages := (totalCount + limit - 1) / limit }

/-- What a handler sends when the store answers: a status with a message, or a status with
`{ list, metadata }`. -/
inductive Response where
  | message (status : Nat) (message : String)
  | page (status : Nat) (list : List ResultRow) (metadata : Metadata)
  deriving DecidableEq, Repr

/-- The `.then` of the three listing handlers: status 200 with the rows and the metadata. -/
def sendPage (t : Tables) (req : Req) (o : FindOptions) : Response :=
  let documents := findAndCountAll t o
  .page 200 documents.rows
    (getMetadata documents.count req.listOptions.limit req.listOptions.offset)

/-- The response of `list`. -/
def listResponse (h : Helpers) (t : Tables) (req : Req) : Response :=
  sendPage t req (list h req)

/-- The response of `search`. -/
def searchResponse (h : Helpers) (t : Tables) (req : Req) : Response :=
  sendPage t req (search h req)

/-- The response of `listByUser`, given the result of the user lookup. -/
def listByUserResponse (h : Helpers) (t : Tables) (req : Req)
    (lookup : Except String (Option User)) : Response :=
  match listByUser h req lookup with
  | .respond status message => .message status message
  | .findAndCountAll o => sendPage t req o

/-- The body of a request: field name to value (null when absent). -/
abbrev Body := String → Value

/-- The object `create` hands to `Document.create`. -/
def create (req : Req) (body : Body) : List (String × Value) :=
  [ ("title", body "title"),
    ("content", body "content"),
    ("access", body "access"),
    ("accesslevel", body "accesslevel"),
    ("userId", .str req.decoded.id) ]

/-! ## The document editor -/

/-- One operation of a Quill delta. -/
inductive Op where
  | insert (text : String)
  | retain (n : Nat)
  | delete (n : Nat)
  deriving DecidableEq, Repr

def Op.length : Op → Nat
  | .insert text => text.length
  | .retain n => n
  | .delete n => n

/-- A Quill delta; `new Delta()` is the empty list of operations. -/
abbrev Delta := List Op

/-- The `length()` of a delta: the sum of the lengths of its operations. -/
def Delta.length (d : Delta) : Nat := (d.map Op.length).sum

/-- The editable attributes: `this.state.attributes` and `this.initialState`. -/
structure Attributes where
  title : String
  access : String
  accesslevel : String
  deriving DecidableEq, Repr

/-- A document as the client store holds it. -/
structure DocumentData where
  title : String
  access : String
  accesslevel : String
  type : String
  content : String
  deriving DecidableEq, Repr

/-- An entry of the `documents` prop; `document` may be missing. -/
structure Container where
  document : Option DocumentData
  deriving DecidableEq, Repr

/-- The library functions the editor calls: `compose` of Quill deltas, `JSON.stringify`
of the editor contents, and `isEqual` of underscore as it is applied in
`componentWillReceiveProps`, to a container of the store and the document of the
editor's own container. -/
structure Lib where
  compose : Delta → Delta → Delta
  stringify : Delta → String
  isEqual : Container → Option DocumentData → Bool

/-- The `newDocument` prop; `id` is empty until a create has been answered. -/
structure NewDocument where
  id : String
  deriving DecidableEq, Repr

/-- The props `componentWillReceiveProps` destructures. -/
structure Props where
  newDocument : NewDocument
  documents : String → Option Container

/-- The fields of a `DocumentEditor` instance: `this.id` (empty when unassigned),
`this.container`, `this.state`, `this.initialState`, `this.contentChanges` and the
contents of `this.contentEditor`. -/
structure DocumentEditor where
  id : String
  container : Option Container
  attributes : Attributes
  status : String
  initialState : Attributes
  contentChanges : Delta
  contents : Delta
  deriving DecidableEq, Repr

/-- The argument of `createDocument`. -/
structure NewDocumentData where
  title : String
  content : String
  type : String
  access : String
  accesslevel : String
  deriving DecidableEq, Repr

/-- The `patch` object of `saveChanges`; a key is `none` when it was not set. -/
structure Patch where
  title : Option String
  access : Option String
  accesslevel : Option String
  content : Option String
  deriving DecidableEq, Repr

/-- A call on the action props. -/
inductive Call where
  | createDocument (document : NewDocumentData)
  | updateDocument (id : String) (patch : Patch)
  deriving DecidableEq, Repr

/-- The condition that opens `saveChanges`: an attribute differs from `initialState` or
the accumulated delta has positive length. -/
def dirty (e : DocumentEditor) : Bool :=
  decide (e.attributes ≠ e.initialState) || decide (e.contentChanges.length > 0)

/-- The patch `saveChanges` builds when an id is assigned. -/
def buildPatch (lib : Lib) (e : DocumentEditor) : Patch :=
  { title := if e.attributes.title ≠ e.initialState.title then some e.attributes.title else none
    access :=
      if e.attributes.access ≠ e.initialState.access then some e.attributes.access else none
    accesslevel :=
      if e.attributes.accesslevel ≠ e.initialState.accesslevel then
        some e.attributes.accesslevel
      else none
    content := if e.contentChanges.length > 0 then some (lib.stringify e.contents) else none }

/-- The method `saveChanges`: the instance afterwards and the calls issued. -/
def saveChanges (lib : Lib) (e : DocumentEditor) : DocumentEditor × List Call :=
  if dirty e then
    let call :=
      if e.id = "" then
        Call.createDocument
          { title := e.attributes.title
            content := lib.stringify e.contents
            type := "quill"
            access := e.attributes.access
            accesslevel := e.attributes.accesslevel }
      else
        Call.updateDocument e.id (buildPatch lib e)
    ({ e with status := "Saving changes...", initialState := e.attributes, contentChanges := [] },
      [call])
  else (e, [])

/-- The second branch of `componentWillReceiveProps`: adopt `newDocument.id` when it is set
and no id is assigned. -/
def adoptNewDocument (e : DocumentEditor) (p : Props) : DocumentEditor :=
  if p.newDocument.id ≠ "" ∧ e.id = "" then
    { e with
      id := p.newDocument.id
      container := p.documents p.newDocument.id
      status := "All changes saved to cloud" }
  else e

/-- The method `componentWillReceiveProps`; `.error` is the TypeError of reading
`this.container.document` when `this.container` is undefined. -/
def componentWillReceiveProps (lib : Lib) (e : DocumentEditor) (p : Props) :
    Except String DocumentEditor :=
  match p.documents e.id with
  | none => .ok (adoptNewDocument e p)
  | some c =>
    match c.document with
    | none => .ok (adoptNewDocument e p)
    | some _ =>
      match e.container with
      | none => .error "TypeError"
      | some own =>
        if !lib.isEqual c own.document then
          .ok { e with status := "All changes saved to cloud" }
        else .ok (adoptNewDocument e p)

/-- The names `updateAttribute` is called with. -/
inductive AttributeName where
  | title
  | access
  | accesslevel
  deriving DecidableEq, Repr

/-- The handler `onTitleChange`. -/
def onTitleChange (e : DocumentEditor) (value : String) : DocumentEditor :=
  { e with attributes := { e.attributes with title := value } }

/-- The method `updateAttribute`. -/
def updateAttribute (e : DocumentEditor) (name : AttributeName) (value : String) :
    DocumentEditor :=
  match name with
  | .title => { e with attributes := { e.attributes with title := value } }
  | .access => { e with attributes := { e.attributes with access := value } }
  | .accesslevel => { e with attributes := { e.attributes with accesslevel := value } }

/-- The `text-change` listener: the change is composed onto `contentChanges`, and the
editor contents move on by the same change. -/
def onTextChange (lib : Lib) (e : DocumentEditor) (delta : Delta) : DocumentEditor :=
  { e with
    contentChanges := lib.compose e.contentChanges delta
    contents := lib.compose e.contents delta }

/-- What can happen to a mounted editor. -/
inductive Event where
  | receiveProps (p : Props)
  | titleChange (value : String)
  | attributeChange (name : AttributeName) (value : String)
  | textChange (delta : Delta)
  | tick

/-- One event: the instance afterwards and the calls issued. A props update that throws
leaves the instance as it was. -/
def step (lib : Lib) (e : DocumentEditor) : Event → DocumentEditor × List Call
  | .receiveProps p =>
    match componentWillReceiveProps lib e p with
    | .ok e' => (e', [])
    | .error _ => (e, [])
  | .titleChange value => (onTitleChange e value, [])
  | .attributeChange name value => (updateAttribute e name value, [])
  | .textChange delta => (onTextChange lib e delta, [])
  | .tick => saveChanges lib e

/-- A sequence of events, with the calls issued in order. -/
def run (lib : Lib) (e : DocumentEditor) : List Event → DocumentEditor × List Call
  | [] => (e, [])
  | ev :: rest =>
    let r := step lib e ev
    let r' := run lib r.1 rest
    (r'.1, r.2 ++ r'.2)

/-! ## The main component's feeds -/

/-- The characters that `\s` matches in a JavaScript regular expression. -/
def isWhiteSpace (c : Char) : Bool :=
  let n := c.toNat
  n == 9 || n == 10 || n == 11 || n == 12 || n == 13 || n == 32 || n == 0xa0 || n == 0x1680
    || (0x2000 ≤ n && n ≤ 0x200a) || n == 0x2028 || n == 0x2029 || n == 0x202f || n == 0x205f
    || n == 0x3000 || n == 0xfeff

/-- The expression `keywords.replace(/\s+/g, '')`: the keywords without white space. -/
def removeWhiteSpace (keywords : String) : String :=
  String.mk (keywords.toList.filter fun c => !isWhiteSpace c)

/-- The least `k` with `a / 2 ^ k < 2 ^ 53`, searched up to the given bound. -/
def excessBits : Nat → Nat → Nat
  | 0, _ => 0
  | fuel + 1, a => if a < 2 ^ 53 then 0 else excessBits fuel (a / 2) + 1

/-- The double nearest to an integer, ties going to the even significand. Integers of up
to 53 bits are doubles; a longer one keeps its 53 leading bits. Magnitudes beyond the
range of doubles are not modelled. -/
def roundToDouble (n : Int) : Int :=
  let a := n.natAbs
  let k := excessBits 1024 a
  let q := a / 2 ^ k
  let r := a % 2 ^ k
  let q' := if 2 ^ k < 2 * r ∨ (2 * r = 2 ^ k ∧ q % 2 = 1) then q + 1 else q
  if n < 0 then -((q' * 2 ^ k : Nat) : Int) else ((q' * 2 ^ k : Nat) : Int)

/-- The expression `a - b` on JavaScript numbers that hold integers: the exact difference,
rounded to a double. -/
def jsSub (a b : Int) : Int := roundToDouble (a - b)

/-- The expression `a * b` on JavaScript numbers that hold integers: the exact product,
rounded to a double. -/
def jsMul (a b : Int) : Int := roundToDouble (a * b)

/-- A feed of the store: `{ list, metadata }`, of which the component reads `metadata`. -/
structure Feed where
  metadata : Option Metadata
  deriving DecidableEq, Repr

/-- The user record `props.self`, of which the component reads `documents`. -/
structure Self where
  documents : Option Feed
  deriving DecidableEq, Repr

/-- The props `refreshFeeds` reads. -/
structure MainProps where
  ownId : String
  self : Option Self
  deriving DecidableEq, Repr

/-- The state `onDocumentSearchChange` and `refreshFeeds` read. -/
structure MainState where
  documentKeywords : String
  userKeywords : String
  documents : Option Feed
  users : Option Feed
  deriving DecidableEq, Repr

/-- A call on the action props; `paging` is the pair of limit and offset passed, none when
the action is called without them. -/
inductive FeedCall where
  | getUserDocuments (id : String) (paging : Option (Int × Int))
  | searchDocuments (keywords : String) (paging : Option (Int × Int))
  | getAllDocuments (paging : Option (Int × Int))
  | searchUsers (keywords : String) (paging : Option (Int × Int))
  | getAllUsers (paging : Option (Int × Int))
  deriving DecidableEq, Repr

/-- The handler `onDocumentSearchChange`, with the callback of `setState` run: the state
afterwards and the call issued. -/
def onDocumentSearchChange (s : MainState) (value : String) : MainState × List FeedCall :=
  let s' := { s with documentKeywords := value }
  if removeWhiteSpace s'.documentKeywords ≠ "" then
    (s', [.searchDocuments s'.documentKeywords none])
  else (s', [.getAllDocuments none])

/-- The method `refreshFeeds`: the calls issued, in order. -/
def refreshFeeds (props : MainProps) (s : MainState) : List FeedCall :=
  let own :=
    match (props.self.bind fun u => u.documents).bind fun f => f.metadata with
    | some m =>
      FeedCall.getUserDocuments props.ownId
        (some ((m.pageSize : Int), jsMul (jsSub (m.currentPage : Int) 1) (m.pageSize : Int)))
    | none => FeedCall.getUserDocuments props.ownId none
  let documents :=
    match s.documents.bind fun f => f.metadata with
    | some m =>
      if removeWhiteSpace s.documentKeywords ≠ "" then
        FeedCall.searchDocuments s.documentKeywords
          (some ((m.pageSize : Int), jsMul (jsSub (m.currentPage : Int) 1) (m.pageSize : Int)))
      else
        FeedCall.getAllDocuments
          (some ((m.pageSize : Int), jsMul (jsSub (m.currentPage : Int) 1) (m.pageSize : Int)))
    | none =>
      if removeWhiteSpace s.documentKeywords ≠ "" then
        FeedCall.searchDocuments s.documentKeywords none
      else FeedCall.getAllDocuments none
  let users :=
    match s.users.bind fun f => f.metadata with
    | some m =>
      if removeWhiteSpace s.userKeywords ≠ "" then
        FeedCall.searchUsers s.userKeywords
          (some ((m.pageSize : Int), jsMul (jsSub (m.currentPage : Int) 1) (m.pageSize : Int)))
      else
        FeedCall.getAllUsers
          (some ((m.pageSize : Int), jsMul (jsSub (m.currentPage : Int) 1) (m.pageSize : Int)))
    | none =>
      if removeWhiteSpace s.userKeywords ≠ "" then FeedCall.searchUsers s.userKeywords none
      else FeedCall.getAllUsers none
  [own, documents, users]

/-! ## Concrete inputs -/

/-- An instance of the role predicates for evaluation at concrete requests: ranks grow
with privilege, 2 is admin and 3 is super-admin. -/
def rankHelpers : Helpers where
  isSuperAdmin := fun req => decide (3 ≤ req.decoded.roleId)
  isAdminOrHigher := fun req => decide (2 ≤ req.decoded.roleId)

/-- The visibility rule in the spec's words (section 8): admin-or-higher, or public, or
owned by the requester, or role-restricted with the requester's role level at least the
document's declared threshold `accesslevel`. -/
def specMayView (h : Helpers) (req : Req) (row : Row) : Bool :=
  h.isAdminOrHigher req
    || decide (row "access" = .str "public")
    || decide (row "userId" = .str req.decoded.id)
    || (decide (row "access" = .str "role")
        && (Value.int req.decoded.roleId).gte (row "accesslevel"))

/-- The per-user rule in the spec's words (4.3): owned by the target user, and, unless the
requester is admin-or-higher or the target, public or role-restricted with the
requester's role level at least the declared threshold `accesslevel`. -/
def specMayViewOf (h : Helpers) (req : Req) (row : Row) : Bool :=
  decide (row "userId" = .str req.paramsId)
    && (h.isAdminOrHigher req
        || decide (req.decoded.id = req.paramsId)
        || decide (row "access" = .str "public")
        || (decide (row "access" = .str "role")
            && (Value.int req.decoded.roleId).gte (row "accesslevel")))

/-- The clauses listed under the `$or` keys of a where-object. -/
def WhereObj.alternatives (w : WhereObj) : List Clause :=
  w.flatMap fun e =>
    match e with
    | .col _ _ => []
    | .or alts => alts

/-- The clauses of the `$or` keys of a where-object that ask for `access: 'role'`. -/
def roleClauses (w : WhereObj) : List Clause :=
  w.alternatives.filter fun cl => cl.contains ("access", Cond.eq (.str "role"))

/-- The reading of the role-restricted clause in the spec's words (4.2): every such clause
puts a condition on the document's own `accesslevel` and on no column besides it and
`access`. -/
def comparesOwnThreshold (w : WhereObj) : Bool :=
  (roleClauses w).all fun cl =>
    (cl.map Prod.fst).contains "accesslevel"
      && (cl.map Prod.fst).all fun c => c == "accesslevel" || c == "access"

/-- A character with no special reading in a LIKE pattern. -/
def plainChar (c : Char) : Bool := c != '%' && c != '_' && c != '\\'

/-- Case-insensitive containment of the query in the title. -/
def containsQuery (query title : String) : Bool :=
  decide (lowerChars query <:+: lowerChars title)

/-- A request of a regular user `u1` of role level 1 for the documents of `u2`. -/
def regularReq : Req :=
  { decoded := { id := "u1", roleId := 1 }, paramsId := "u2",
    listOptions := { limit := 20, offset := 0, query := "a_c" } }

/-- A request of a super-admin `root` of role level 3 for the documents of `u2`. -/
def superReq : Req :=
  { decoded := { id := "root", roleId := 3 }, paramsId := "u2",
    listOptions := { limit := 20, offset := 0, query := "" } }

/-- The user `u2`, soft-deleted at time 7. -/
def deletedUser : User := { id := "u2", deletedAt := some 7 }

/-- A role-restricted document of user `u2` titled `abc`, with `accesslevel` 1 and
`userRole` 0. -/
def roleRow : Row := fun c =>
  if c = "access" then .str "role"
  else if c = "userId" then .str "u2"
  else if c = "accesslevel" then .int 1
  else if c = "userRole" then .int 0
  else if c = "title" then .str "abc"
  else .null

/-- A public document of user `u2` titled `abc`. -/
def publicRow : Row := fun c =>
  if c = "access" then .str "public"
  else if c = "userId" then .str "u2"
  else if c = "title" then .str "abc"
  else .null

/-- The text a delta inserts, used as the serialisation at concrete inputs. -/
def insertedText (d : Delta) : String :=
  String.join (d.map fun op =>
    match op with
    | .insert text => text
    | _ => "")

/-- An instance of the library functions for evaluation at concrete editors. -/
def sampleLib : Lib where
  compose := fun a b => a ++ b
  stringify := insertedText
  isEqual := fun _ _ => false

/-- A new, untouched editor: no id, attributes at their defaults, nothing accumulated. -/
def cleanEditor : DocumentEditor :=
  { id := "", container := none
    attributes := { title := "", access := "private", accesslevel := "view" }
    status := ""
    initialState := { title := "", access := "private", accesslevel := "view" }
    contentChanges := [], contents := [] }

/-- A new editor after typing a title and `lo` at the end of `hel`. -/
def draftEditor : DocumentEditor :=
  { cleanEditor with
    attributes := { title := "Notes", access := "private", accesslevel := "view" }
    contentChanges := [.retain 3, .insert "lo"]
    contents := [.insert "hello"] }

/-- The editor of document `d1` after a change of title alone. -/
def retitledEditor : DocumentEditor :=
  { id := "d1", container := some { document := none }
    attributes := { title := "Notes", access := "private", accesslevel := "view" }
    status := "All changes saved to cloud"
    initialState := { title := "", access := "private", accesslevel := "view" }
    contentChanges := [], contents := [.insert "hello"] }

/-- Props that carry no created document, as after a create that failed. -/
def noIdProps : Props :=
  { newDocument := { id := "" }, documents := fun _ => none }

/-- Props that announce a created document `d2`, absent from `documents`. -/
def createdProps : Props :=
  { newDocument := { id := "d2" }, documents := fun _ => none }

/-- The columns of a list or search row in the spec's words (section 6): id, title, type,
visibility, threshold, owner id, createdAt, updatedAt. -/
def specRowColumns : List String :=
  ["id", "title", "type", "access", "accesslevel", "userId", "createdAt", "updatedAt"]

/-- Whether a projection asks for every one of the given columns. -/
def includesAll (columns attributes : List String) : Bool :=
  columns.all fun c => attributes.contains c

/-- A document row with its `content` blanked. -/
def redact (row : Row) : Row := fun c => if c = "content" then .null else row c

/-- Tables with the public document `abc` of `u2`, whose content is given, and the user
`u2`. -/
def sampleTables (content : String) : Tables :=
  { documents :=
      [fun c => if c = "content" then .str content else if c = "id" then .str "d1"
        else publicRow c]
    users :=
      [fun c => if c = "id" then .str "u2" else if c = "name" then .str "Ada Byron"
        else if c = "roleId" then .int 1 else .null] }

/-- Props of the main component of user `u1` before the own feed has loaded. -/
def sampleProps : MainProps := { ownId := "u1", self := none }

/-- A state of the main component with the given document keywords and the given metadata
on the documents feed. -/
def feedState (keywords : String) (m : Metadata) : MainState :=
  { documentKeywords := keywords, userKeywords := ""
    documents := some { metadata := some m }, users := none }

/-- A request body with the four document fields only. -/
def plainBody : Body := fun f =>
  if f = "title" then .str "Notes"
  else if f = "content" then .str "hello"
  else if f = "access" then .str "private"
  else if f = "accesslevel" then .str "view"
  else .null

/-- The same body with a `userId` and an `id` field added. -/
def forgedBody : Body := fun f =>
  if f = "userId" then .str "u2" else if f = "id" then .str "d9" else plainBody f

/-! ## The access predicate of `list` -/

theorem gte_int_iff (v : Value) (n : Int) :
    v.gte (.int n) = true ↔ ∃ r : Int, v = .int r ∧ n ≤ r := by
  cases v <;> simp [Value.gte]

/-- C1, as stated, fails: for the regular requester `u1` of role level 1 and the
role-restricted document of `u2` with `accesslevel` 1 and `userRole` 0, the rule of the
spec admits the document (1 is at least 1) and the where-object of `list` does not. -/
theorem list_threshold_rule_fails :
    ¬ ((list rankHelpers regularReq).whereClause.holds roleRow = true
        ↔ specMayView rankHelpers regularReq roleRow = true) := by
  decide

/-- C1, amended: the where-object of `list` matches a document iff the requester is
admin-or-higher, or `access` is `public`, or `userId` is the requester's id, or `access`
is `role` and the row's `userRole` is an integer at least the requester's `roleId`. -/
theorem list_where_matches_iff (h : Helpers) (req : Req) (row : Row) :
    (list h req).whereClause.holds row = true
      ↔ (h.isAdminOrHigher req = true
          ∨ row "access" = .str "public"
          ∨ row "userId" = .str req.decoded.id
          ∨ (row "access" = .str "role"
              ∧ ∃ r : Int, row "userRole" = .int r ∧ req.decoded.roleId ≤ r)) := by
  cases hadm : h.isAdminOrHigher req
  · simp [list, listQuery, hadm, WhereObj.holds, Entry.holds, Clause.holds, Cond.holds,
      gte_int_iff]
    constructor
    · rintro (hp | ⟨hr, ha⟩ | ho)
      · exact Or.inl hp
      · exact Or.inr (Or.inr ⟨ha, hr⟩)
      · exact Or.inr (Or.inl ho)
    · rintro (hp | ho | ⟨ha, hr⟩)
      · exact Or.inl hp
      · exact Or.inr (Or.inr ho)
      · exact Or.inr (Or.inl ⟨hr, ha⟩)
  · simp [list, listQuery, hadm, WhereObj.holds]

/-! ## The column read by the role-restricted clause -/

/-- C2, as stated, fails: for the regular requester the role-restricted clause that `list`
builds does not put its comparison on `accesslevel`. -/
theorem role_clause_threshold_fails :
    comparesOwnThreshold (list rankHelpers regularReq).whereClause = false := by
  decide

/-- C2, amended: in `list`, `search` and `listByUser` the role-restricted clause is
`{ userRole: { $gte: roleId }, access: 'role' }`: it compares the row's `userRole` with the
requester's `roleId` (present exactly when the requester is not admin-or-higher and, in
`listByUser`, not the target user), and no where-object mentions `accesslevel`. -/
theorem role_clause_reads_userRole (h : Helpers) (req : Req) :
    roleClauses (list h req).whereClause
        = (if h.isAdminOrHigher req then []
           else [[("userRole", .gte (.int req.decoded.roleId)), ("access", .eq (.str "role"))]])
      ∧ roleClauses (search h req).whereClause
        = (if h.isAdminOrHigher req then []
           else [[("userRole", .gte (.int req.decoded.roleId)), ("access", .eq (.str "role"))]])
      ∧ roleClauses (listByUserQuery h req)
        = (if h.isAdminOrHigher req || isOwner req then []
           else [[("userRole", .gte (.int req.decoded.roleId)), ("access", .eq (.str "role"))]])
      ∧ "accesslevel" ∉ (list h req).whereClause.columns
      ∧ "accesslevel" ∉ (search h req).whereClause.columns
      ∧ "accesslevel" ∉ (listByUserQuery h req).columns := by
  cases hadm : h.isAdminOrHigher req <;> cases hown : isOwner req <;>
    simp [list, listQuery, search, searchQuery, listByUserQuery, hadm, hown, roleClauses,
      WhereObj.alternatives, WhereObj.columns, List.filter, List.contains, List.elem]

/-! ## `listByUser` -/

theorem insertRow_perm (order : List (String × String)) (r : Row) (rows : List Row) :
    (insertRow order r rows).Perm (r :: rows) := by
  induction rows with
  | nil => exact List.Perm.refl _
  | cons x xs ih =>
    simp only [insertRow]
    split
    · exact List.Perm.refl _
    · exact (List.Perm.cons x ih).trans (List.Perm.swap r x xs)

theorem sortRows_perm (order : List (String × String)) (rows : List Row) :
    (sortRows order rows).Perm rows := by
  induction rows with
  | nil => exact List.Perm.refl _
  | cons x xs ih =>
    simp only [sortRows, List.foldr_cons] at ih ⊢
    exact (insertRow_perm order x _).trans (List.Perm.cons x ih)

theorem findAndCountAll_rows_length (t : Tables) (o : FindOptions) :
    (findAndCountAll t o).rows.length
      = min o.limit ((t.documents.filter fun r => o.whereClause.holds r).length - o.offset) := by
  simp only [findAndCountAll, List.length_map, List.length_take, List.length_drop,
    (sortRows_perm o.order _).length_eq]

theorem findAndCountAll_rows_mem (t : Tables) (o : FindOptions) (row : ResultRow)
    (hrow : row ∈ (findAndCountAll t o).rows) :
    ∃ d ∈ t.documents, o.whereClause.holds d = true
      ∧ row.columns = project o.attributes d
      ∧ row.included = o.includeModels.map fun m => (m.1, (joined t m.1 d).map (project m.2))
    := by
  simp only [findAndCountAll, List.mem_map] at hrow
  obtain ⟨d, hd, rfl⟩ := hrow
  have hsorted := List.mem_of_mem_drop (List.mem_of_mem_take hd)
  have hmem := (sortRows_perm o.order _).mem_iff.mp hsorted
  rw [List.mem_filter] at hmem
  exact ⟨d, hmem.1, hmem.2, rfl, rfl⟩

/-- C3: when the lookup of the target user does not fail, `listByUser` answers 404 iff the
record is absent, or it carries a deletion timestamp and the requester is not super-admin;
in every other case (a super-admin with a soft-deleted target included) it runs the
document query for id, title, type, access, createdAt and updatedAt with the where-object
built for the requester, newest first, within the limit and offset of the request, and
answers 200 with the rows of that query and their metadata: as many rows as the window
holds of the matching documents, each the projection of a matching document. -/
theorem listByUser_notFound_iff (h : Helpers) (req : Req) (user : Option User) (t : Tables) :
    ((∃ message, listByUser h req (.ok user) = .respond 404 message)
        ↔ (user = none
            ∨ ∃ u, user = some u ∧ u.deletedAt ≠ none ∧ h.isSuperAdmin req = false))
      ∧ ((∃ message, listByUserResponse h t req (.ok user) = .message 404 message)
        ↔ (user = none
            ∨ ∃ u, user = some u ∧ u.deletedAt ≠ none ∧ h.isSuperAdmin req = false))
      ∧ ∃ options : FindOptions,
          options
              = { attributes := ["id", "title", "type", "access", "createdAt", "updatedAt"]
                  whereClause := listByUserQuery h req
                  includeModels := []
                  order := [("updatedAt", "DESC")]
                  limit := req.listOptions.limit
                  offset := req.listOptions.offset }
            ∧ (listByUser h req (.ok user) = .findAndCountAll options
                ↔ ¬ (user = none
                    ∨ ∃ u, user = some u ∧ u.deletedAt ≠ none ∧ h.isSuperAdmin req = false))
            ∧ (¬ (user = none
                    ∨ ∃ u, user = some u ∧ u.deletedAt ≠ none ∧ h.isSuperAdmin req = false) →
                listByUserResponse h t req (.ok user)
                    = .page 200 (findAndCountAll t options).rows
                        (getMetadata
                          (t.documents.filter fun d => (listByUserQuery h req).holds d).length
                          req.listOptions.limit req.listOptions.offset)
                  ∧ (findAndCountAll t options).rows.length
                    = min req.listOptions.limit
                        ((t.documents.filter fun d => (listByUserQuery h req).holds d).length
                          - req.listOptions.offset)
                  ∧ ∀ row ∈ (findAndCountAll t options).rows,
                      ∃ d ∈ t.documents, (listByUserQuery h req).holds d = true
                        ∧ row.columns
                          = project ["id", "title", "type", "access", "createdAt", "updatedAt"] d
                        ∧ row.included = []) := by
  refine ⟨?_, ?_, _, rfl, ?_, ?_⟩
  · cases user with
    | none => simp [listByUser]
    | some u =>
      cases hdel : u.deletedAt <;> cases hsup : h.isSuperAdmin req <;>
        simp [listByUser, hdel, hsup]
  · cases user with
    | none => simp [listByUserResponse, listByUser]
    | some u =>
      cases hdel : u.deletedAt <;> cases hsup : h.isSuperAdmin req <;>
        simp [listByUserResponse, listByUser, sendPage, hdel, hsup]
  · cases user with
    | none => simp [listByUser]
    | some u =>
      cases hdel : u.deletedAt <;> cases hsup : h.isSuperAdmin req <;>
        simp [listByUser, hdel, hsup]
  · intro hnot
    have hout : listByUser h req (.ok user)
        = .findAndCountAll
            { attributes := ["id", "title", "type", "access", "createdAt", "updatedAt"]
              whereClause := listByUserQuery h req
              includeModels := []
              order := [("updatedAt", "DESC")]
              limit := req.listOptions.limit
              offset := req.listOptions.offset } := by
      cases user with
      | none => exact absurd (Or.inl rfl) hnot
      | some u =>
        cases hdel : u.deletedAt <;> cases hsup : h.isSuperAdmin req <;>
          simp_all [listByUser]
    refine ⟨?_, ?_, ?_⟩
    · simp only [listByUserResponse, hout, sendPage]
      rfl
    · exact findAndCountAll_rows_length t _
    · intro row hrow
      obtain ⟨d, hd, hholds, hcols, hincl⟩ := findAndCountAll_rows_mem t _ row hrow
      exact ⟨d, hd, hholds, hcols, by simpa using hincl⟩

/-- C3 at a super-admin asking for the documents of the soft-deleted user `u2`: the
answer is 200 with the one document of `u2`. -/
theorem listByUser_notFound_iff_witness :
    ∃ row, listByUserResponse rankHelpers (sampleTables "draft") superReq
        (.ok (some deletedUser))
      = .page 200 [row] (getMetadata 1 20 0) := by
  obtain ⟨options, hoptions, -, hpage⟩ :=
    (listByUser_notFound_iff rankHelpers superReq (some deletedUser)
      (sampleTables "draft")).2.2
  have hnot : ¬ (some deletedUser = none
      ∨ ∃ u, some deletedUser = some u ∧ u.deletedAt ≠ none
          ∧ rankHelpers.isSuperAdmin superReq = false) := by
    rintro (hnone | ⟨u, _, _, hsuper⟩)
    · cases hnone
    · exact absurd hsuper (by decide)
  rw [(hpage hnot).1, hoptions]
  exact ⟨_, rfl⟩

/-- C4, as stated, fails: the regular requester `u1` asks for the documents of `u2`; the
role-restricted document of `u2` with `accesslevel` 1 and `userRole` 0 satisfies the rule
of the spec and is not matched by the where-object of `listByUser`. -/
theorem listByUser_threshold_rule_fails :
    ¬ ((listByUserQuery rankHelpers regularReq).holds roleRow = true
        ↔ specMayViewOf rankHelpers regularReq roleRow = true) := by
  decide

/-- C4, amended: the where-object `listByUser` queries with always requires `userId` to be
the target user id; when the requester is neither admin-or-higher nor the target user it
also requires `access` to be `public`, or `access` to be `role` with the row's `userRole`
an integer at least the requester's `roleId` (no ownership clause); otherwise it requires
nothing more, so every document of the target matches. -/
theorem listByUser_where_matches_iff (h : Helpers) (req : Req) (row : Row) :
    ((listByUserQuery h req).holds row = true
        ↔ (row "userId" = .str req.paramsId
            ∧ (h.isAdminOrHigher req = true
                ∨ req.decoded.id = req.paramsId
                ∨ row "access" = .str "public"
                ∨ (row "access" = .str "role"
                    ∧ ∃ r : Int, row "userRole" = .int r ∧ req.decoded.roleId ≤ r))))
      ∧ (listByUserQuery h req).alternatives
          = (if h.isAdminOrHigher req = true ∨ req.decoded.id = req.paramsId then []
             else
              [ [("access", .eq (.str "public"))],
                [("userRole", .gte (.int req.decoded.roleId)), ("access", .eq (.str "role"))] ])
      := by
  cases hadm : h.isAdminOrHigher req <;> by_cases hown : req.decoded.id = req.paramsId <;>
    simp [listByUserQuery, isOwner, hadm, hown, WhereObj.holds, Entry.holds, Clause.holds,
      Cond.holds, gte_int_iff, WhereObj.alternatives]
  intro _
  constructor
  · rintro (hp | ⟨hr, ha⟩)
    · exact Or.inl hp
    · exact Or.inr ⟨ha, hr⟩
  · rintro (hp | ⟨ha, hr⟩)
    · exact Or.inl hp
    · exact Or.inr ⟨hr, ha⟩

/-! ## `search` -/

/-- C6: the where-object of `search` is the one of `list` for the same requester with the
`title` condition added, and a document matches it iff it matches the where-object of
`list` and its title matches the pattern; for admin-or-higher requesters, whose `list`
where-object is empty, it is the title condition alone. -/
theorem search_where_is_list_and_title (h : Helpers) (req : Req) (row : Row) :
    (search h req).whereClause
        = (list h req).whereClause
            ++ [.col "title" (.iLike ("%" ++ req.listOptions.query ++ "%"))]
      ∧ ((search h req).whereClause.holds row = true
          ↔ ((list h req).whereClause.holds row = true
              ∧ (Cond.iLike ("%" ++ req.listOptions.query ++ "%")).holds (row "title") = true))
      ∧ (h.isAdminOrHigher req = true → (list h req).whereClause = []) := by
  refine ⟨by simp [search, searchQuery, list, listQuery], ?_, ?_⟩
  · simp [search, searchQuery, list, listQuery, WhereObj.holds, List.all_append, Entry.holds]
  · intro hadm
    simp [list, listQuery, hadm]

/-! ### The title condition -/

theorem toLower_ne_of_lt (c s : Char) (hs : s.toNat < 97) (hc : c ≠ s) : c.toLower ≠ s := by
  unfold Char.toLower
  simp only []
  split
  · rename_i hup
    intro heq
    have h1 : (Char.ofNat (c.toNat + 32)).toNat = s.toNat := by rw [heq]
    generalize c.toNat = n at hup h1
    obtain ⟨hlo, hhi⟩ := hup
    have h2 : (Char.ofNat (n + 32)).toNat = n + 32 := by
      interval_cases n <;> decide
    omega
  · exact hc

theorem plainChar_toLower (c : Char) (hc : plainChar c = true) : plainChar c.toLower = true := by
  simp only [plainChar, Bool.and_eq_true, bne_iff_ne, ne_eq] at hc ⊢
  obtain ⟨⟨h1, h2⟩, h3⟩ := hc
  exact ⟨⟨toLower_ne_of_lt c '%' (by decide) h1, toLower_ne_of_lt c '_' (by decide) h2⟩,
    toLower_ne_of_lt c '\\' (by decide) h3⟩

theorem tokens_plain_append (q rest : List Char) (hq : ∀ c ∈ q, plainChar c = true) :
    tokens (q ++ rest) = (tokens rest).map (q.map Tok.lit ++ ·) := by
  induction q with
  | nil => simp
  | cons c q ih =>
    have hc := hq c (List.mem_cons_self c q)
    simp only [plainChar, Bool.and_eq_true, bne_iff_ne, ne_eq] at hc
    obtain ⟨⟨h1, h2⟩, h3⟩ := hc
    have ih' := ih fun d hd => hq d (List.mem_cons_of_mem c hd)
    rw [List.cons_append, tokens.eq_def]
    simp only [h1, h2, h3, if_false, ih', Option.map_map, List.map_cons]
    rfl

theorem matchToks_lits (q : List Char) (p : List Tok) (t : List Char) :
    matchToks (q.map Tok.lit ++ p) t = true ↔ ∃ t', t = q ++ t' ∧ matchToks p t' = true := by
  induction q generalizing t with
  | nil => simp
  | cons c q ih =>
    cases t with
    | nil => simp [matchToks]
    | cons d t =>
      simp only [List.map_cons, List.cons_append, matchToks, List.append_eq, Bool.and_eq_true,
        beq_iff_eq, ih, List.cons.injEq]
      constructor
      · rintro ⟨hcd, t', ht, ht'⟩
        exact ⟨t', ⟨hcd.symm, ht⟩, ht'⟩
      · rintro ⟨t', ⟨hcd, ht⟩, ht'⟩
        exact ⟨hcd.symm, t', ht, ht'⟩

theorem matchToks_anyRun (p : List Tok) (t : List Char) :
    matchToks (.anyRun :: p) t = true ↔ ∃ s, s <:+ t ∧ matchToks p s = true := by
  simp [matchToks, List.any_eq_true, List.mem_tails]

/-- For a query without `%`, `_` and backslash, the title condition of `search` is
containment of the query in the title up to the case of the letters `A` to `Z`, the
folding of `lowerChars`. -/
theorem iLike_plain_query (query title : String)
    (hq : ∀ c ∈ query.toList, plainChar c = true) :
    iLike ("%" ++ query ++ "%") title = true ↔ containsQuery query title = true := by
  have hlow : ∀ c ∈ lowerChars query, plainChar c = true := by
    intro c hc
    simp only [lowerChars, List.mem_map] at hc
    obtain ⟨d, hd, rfl⟩ := hc
    exact plainChar_toLower d (hq d hd)
  have hpat : lowerChars ("%" ++ query ++ "%") = '%' :: (lowerChars query ++ ['%']) := by
    simp [lowerChars, String.toList]
  have htok : tokens (lowerChars ("%" ++ query ++ "%"))
      = some (Tok.anyRun :: ((lowerChars query).map Tok.lit ++ [Tok.anyRun])) := by
    rw [hpat, tokens.eq_def]
    simp only [if_true, tokens_plain_append _ _ hlow]
    rfl
  simp only [iLike, likeMatch, htok, matchToks_anyRun, matchToks_lits, containsQuery,
    decide_eq_true_eq]
  constructor
  · rintro ⟨s, ⟨u, hu⟩, t', rfl, _⟩
    exact ⟨u, t', by simpa using hu⟩
  · rintro ⟨u, t', hu⟩
    refine ⟨lowerChars query ++ t', ⟨u, by simpa using hu⟩, t', rfl, ?_⟩
    exact ⟨[], List.nil_suffix, rfl⟩

/-- C5 at a query with a pattern character: for the query `a_c` the title condition that
`search` builds holds of the title `abc`, which does not contain `a_c`, and the public
document with that title matches the where-object of `search`. -/
theorem search_underscore_query_matches_abc :
    regularReq.listOptions.query = "a_c"
      ∧ publicRow "title" = .str "abc"
      ∧ (Cond.iLike ("%" ++ regularReq.listOptions.query ++ "%")).holds (publicRow "title") = true
      ∧ containsQuery regularReq.listOptions.query "abc" = false
      ∧ (search rankHelpers regularReq).whereClause.holds publicRow = true := by
  decide

/-! ## `saveChanges` -/

/-- C7: when the attributes equal `initialState` and the accumulated delta has length 0,
`saveChanges` issues no call and leaves the instance (its status, `initialState` and
`contentChanges` included) as it was, whatever the id. -/
theorem saveChanges_clean (lib : Lib) (e : DocumentEditor)
    (hattr : e.attributes = e.initialState) (hlen : e.contentChanges.length = 0) :
    saveChanges lib e = (e, []) := by
  simp [saveChanges, dirty, hattr, hlen]

/-- C8: a dirty editor with an id assigned issues exactly one call, `updateDocument` for
that id; its patch has `title` (resp. `access`, `accesslevel`) set, to the current value,
iff the current value differs from the one in `initialState`, and `content` set, to the
serialised editor contents, iff the accumulated delta has positive length. After a title
change alone the patch is `{ title }`. -/
theorem saveChanges_update (lib : Lib) (e : DocumentEditor)
    (hdirty : e.attributes ≠ e.initialState ∨ 0 < e.contentChanges.length)
    (hid : e.id ≠ "") :
    ∃ patch : Patch,
      (saveChanges lib e).2 = [Call.updateDocument e.id patch]
        ∧ (∀ v, patch.title = some v
            ↔ (e.attributes.title ≠ e.initialState.title ∧ v = e.attributes.title))
        ∧ (∀ v, patch.access = some v
            ↔ (e.attributes.access ≠ e.initialState.access ∧ v = e.attributes.access))
        ∧ (∀ v, patch.accesslevel = some v
            ↔ (e.attributes.accesslevel ≠ e.initialState.accesslevel
                ∧ v = e.attributes.accesslevel))
        ∧ (∀ v, patch.content = some v
            ↔ (0 < e.contentChanges.length ∧ v = lib.stringify e.contents))
        ∧ (e.attributes.access = e.initialState.access →
            e.attributes.accesslevel = e.initialState.accesslevel →
            e.contentChanges.length = 0 →
            patch = { title := some e.attributes.title, access := none, accesslevel := none,
                      content := none }) := by
  have hd : dirty e = true := by
    simpa [dirty] using hdirty
  refine ⟨buildPatch lib e, by simp [saveChanges, hd, hid], ?_, ?_, ?_, ?_, ?_⟩
  · intro v
    by_cases h : e.attributes.title = e.initialState.title <;> simp [buildPatch, h, eq_comm]
  · intro v
    by_cases h : e.attributes.access = e.initialState.access <;> simp [buildPatch, h, eq_comm]
  · intro v
    by_cases h : e.attributes.accesslevel = e.initialState.accesslevel <;>
      simp [buildPatch, h, eq_comm]
  · intro v
    by_cases h : 0 < e.contentChanges.length <;> simp [buildPatch, h, eq_comm]
  · intro ha hl hc
    have ht : e.attributes.title ≠ e.initialState.title := by
      intro ht
      rcases hdirty with hne | hpos
      · apply hne
        cases hx : e.attributes
        cases hy : e.initialState
        simp_all
      · omega
    simp [buildPatch, ha, hl, hc, ht]

/-- C9: a dirty editor with no id assigned issues exactly one call, `createDocument`, with
the current title, access and accesslevel, the type `quill`, and the serialisation of the
editor's full contents. -/
theorem saveChanges_create (lib : Lib) (e : DocumentEditor)
    (hdirty : e.attributes ≠ e.initialState ∨ 0 < e.contentChanges.length)
    (hid : e.id = "") :
    (saveChanges lib e).2
      = [Call.createDocument
          { title := e.attributes.title
            content := lib.stringify e.contents
            type := "quill"
            access := e.attributes.access
            accesslevel := e.attributes.accesslevel }] := by
  have hd : dirty e = true := by
    simpa [dirty] using hdirty
  simp [saveChanges, hd, hid]

/-- C7 at the untouched new editor. -/
theorem saveChanges_clean_witness : saveChanges sampleLib cleanEditor = (cleanEditor, []) :=
  saveChanges_clean sampleLib cleanEditor rfl rfl

/-- C8 at the editor of `d1` after a title change alone: the patch is `{ title }`. -/
theorem saveChanges_update_witness :
    (saveChanges sampleLib retitledEditor).2
      = [Call.updateDocument "d1"
          { title := some "Notes", access := none, accesslevel := none, content := none }] := by
  obtain ⟨patch, hcall, -, -, -, -, honly⟩ :=
    saveChanges_update sampleLib retitledEditor (Or.inl (by decide)) (by decide)
  rw [hcall, honly rfl rfl rfl]
  rfl

/-- C9 at the new editor with a title and a content change: the payload carries the whole
contents `hello`, not the accumulated change. -/
theorem saveChanges_create_witness :
    (saveChanges sampleLib draftEditor).2
      = [Call.createDocument
          { title := "Notes", content := "hello", type := "quill", access := "private",
            accesslevel := "view" }] := by
  rw [saveChanges_create sampleLib draftEditor (Or.inl (by decide)) rfl]
  rfl

/-! ## The document id -/

theorem adoptNewDocument_id (e : DocumentEditor) (p : Props) :
    (adoptNewDocument e p).id = e.id
      ∨ (e.id = "" ∧ p.newDocument.id ≠ "" ∧ (adoptNewDocument e p).id = p.newDocument.id) := by
  unfold adoptNewDocument
  split
  · rename_i hc
    exact Or.inr ⟨hc.2, hc.1, rfl⟩
  · exact Or.inl rfl

theorem componentWillReceiveProps_id (lib : Lib) (e e' : DocumentEditor) (p : Props)
    (hok : componentWillReceiveProps lib e p = .ok e') :
    e'.id = e.id ∨ (e.id = "" ∧ p.newDocument.id ≠ "" ∧ e'.id = p.newDocument.id) := by
  unfold componentWillReceiveProps at hok
  split at hok
  · cases hok
    exact adoptNewDocument_id e p
  · split at hok
    · cases hok
      exact adoptNewDocument_id e p
    · split at hok
      · cases hok
      · split at hok
        · cases hok
          exact Or.inl rfl
        · cases hok
          exact adoptNewDocument_id e p

theorem saveChanges_id (lib : Lib) (e : DocumentEditor) : (saveChanges lib e).1.id = e.id := by
  unfold saveChanges
  split <;> rfl

theorem saveChanges_calls_of_id (lib : Lib) (e : DocumentEditor) (hid : e.id ≠ "") :
    ∀ c ∈ (saveChanges lib e).2, ∃ patch, c = Call.updateDocument e.id patch := by
  intro c hc
  unfold saveChanges at hc
  split at hc
  · simp only [hid, if_false, List.mem_singleton] at hc
    exact ⟨_, hc⟩
  · simp at hc

theorem step_keeps_id (lib : Lib) (e : DocumentEditor) (hid : e.id ≠ "") (ev : Event) :
    (step lib e ev).1.id = e.id
      ∧ ∀ c ∈ (step lib e ev).2, ∃ patch, c = Call.updateDocument e.id patch := by
  cases ev with
  | receiveProps p =>
    simp only [step]
    cases hr : componentWillReceiveProps lib e p with
    | error _ => simp
    | ok e' =>
      rcases componentWillReceiveProps_id lib e e' p hr with h | ⟨h, _⟩
      · simp [h]
      · exact absurd h hid
  | titleChange value => simp [step, onTitleChange]
  | attributeChange name value => cases name <;> simp [step, updateAttribute]
  | textChange delta => simp [step, onTextChange]
  | tick => exact ⟨saveChanges_id lib e, saveChanges_calls_of_id lib e hid⟩

theorem run_keeps_id (lib : Lib) (events : List Event) :
    ∀ e : DocumentEditor, e.id ≠ "" →
      (run lib e events).1.id = e.id
        ∧ ∀ c ∈ (run lib e events).2, ∃ patch, c = Call.updateDocument e.id patch := by
  induction events with
  | nil => intro e _; simp [run]
  | cons ev rest ih =>
    intro e hid
    obtain ⟨hs1, hs2⟩ := step_keeps_id lib e hid ev
    have hid' : (step lib e ev).1.id ≠ "" := by rw [hs1]; exact hid
    obtain ⟨hr1, hr2⟩ := ih (step lib e ev).1 hid'
    refine ⟨by simp only [run]; rw [hr1, hs1], ?_⟩
    intro c hc
    simp only [run, List.mem_append] at hc
    rcases hc with hc | hc
    · exact hs2 c hc
    · obtain ⟨patch, hp⟩ := hr2 c hc
      exact ⟨patch, by rw [hp, hs1]⟩

/-- C10: once `this.id` is set, no sequence of props updates, edits and timer ticks changes
it; every call issued on the way is `updateDocument` with that id (never
`createDocument`), and a flush from any state reached while dirty issues exactly that
update. A props update changes the id only when none is assigned, and then to
`newDocument.id`. -/
theorem id_fixed_once_set (lib : Lib) (e : DocumentEditor) (hid : e.id ≠ "")
    (events : List Event) :
    (run lib e events).1.id = e.id
      ∧ (∀ c ∈ (run lib e events).2, ∃ patch, c = Call.updateDocument e.id patch)
      ∧ (dirty (run lib e events).1 = true →
          (saveChanges lib (run lib e events).1).2
            = [Call.updateDocument e.id (buildPatch lib (run lib e events).1)])
      ∧ (∀ (p : Props) (e' : DocumentEditor),
          componentWillReceiveProps lib e p = .ok e' → e'.id = e.id)
      ∧ (∀ (e₀ e' : DocumentEditor) (p : Props),
          componentWillReceiveProps lib e₀ p = .ok e' → e'.id ≠ e₀.id →
            e₀.id = "" ∧ e'.id = p.newDocument.id) := by
  obtain ⟨h1, h2⟩ := run_keeps_id lib events e hid
  refine ⟨h1, h2, ?_, ?_, ?_⟩
  · intro hd
    simp [saveChanges, hd, hid, h1]
  · intro p e' hok
    rcases componentWillReceiveProps_id lib e e' p hok with h | ⟨h, _⟩
    · exact h
    · exact absurd h hid
  · intro e₀ e' p hok hne
    rcases componentWillReceiveProps_id lib e₀ e' p hok with h | ⟨h, _, h'⟩
    · exact absurd h hne
    · exact ⟨h, h'⟩

/-- C10 at the editor of `d1`: a props update announcing `d2`, a further title change and
a tick leave the id `d1` and issue one update of `d1`. -/
theorem id_fixed_once_set_witness :
    (run sampleLib retitledEditor [.receiveProps createdProps, .titleChange "Plan", .tick]).1.id
        = "d1"
      ∧ (run sampleLib retitledEditor [.receiveProps createdProps, .titleChange "Plan", .tick]).2
        = [Call.updateDocument "d1"
            { title := some "Plan", access := none, accesslevel := none, content := none }] :=
  ⟨(id_fixed_once_set sampleLib retitledEditor (by decide)
      [.receiveProps createdProps, .titleChange "Plan", .tick]).1, by decide⟩

/-! ## The projection of listing rows -/

/-- C11, as stated, fails: the projection `list` asks for does not include the threshold
column `accesslevel`. -/
theorem list_projection_lacks_threshold :
    includesAll specRowColumns (list rankHelpers regularReq).attributes = false := by
  decide

/-- C11, amended: `list` and `search` ask for exactly the columns id, title, type, access,
userId, createdAt and updatedAt (not accesslevel) and join the owner as `User` with id,
name and roleId; every row of their results carries these columns and this join. -/
theorem list_search_projection (h : Helpers) (req : Req) (t : Tables) :
    (list h req).attributes
        = ["id", "title", "type", "access", "userId", "createdAt", "updatedAt"]
      ∧ (search h req).attributes
        = ["id", "title", "type", "access", "userId", "createdAt", "updatedAt"]
      ∧ (list h req).includeModels = [("User", ["id", "name", "roleId"])]
      ∧ (search h req).includeModels = [("User", ["id", "name", "roleId"])]
      ∧ (∀ o, o = list h req ∨ o = search h req → ∀ row ∈ (findAndCountAll t o).rows,
          row.columns.map Prod.fst
              = ["id", "title", "type", "access", "userId", "createdAt", "updatedAt"]
            ∧ row.included.map Prod.fst = ["User"]
            ∧ ∀ columns, ("User", some columns) ∈ row.included →
                columns.map Prod.fst = ["id", "name", "roleId"]) := by
  refine ⟨rfl, rfl, rfl, rfl, ?_⟩
  intro o ho row hrow
  have hattr : o.attributes
      = ["id", "title", "type", "access", "userId", "createdAt", "updatedAt"] := by
    rcases ho with rfl | rfl <;> rfl
  have hincl : o.includeModels = [("User", ["id", "name", "roleId"])] := by
    rcases ho with rfl | rfl <;> rfl
  simp only [findAndCountAll, List.mem_map] at hrow
  obtain ⟨r, _, rfl⟩ := hrow
  refine ⟨by simp [project, hattr], by simp [hincl], ?_⟩
  intro columns hmem
  simp only [hincl, List.map_cons, List.map_nil, List.mem_singleton, Prod.mk.injEq, true_and]
    at hmem
  cases hj : joined t "User" r with
  | none => simp [hj] at hmem
  | some u =>
    simp only [hj, Option.map_some', Option.some.injEq] at hmem
    subst hmem
    simp [project]

/-! ## Listings do not depend on content -/

theorem clause_holds_congr (cl : Clause) (r r' : Row)
    (h : ∀ c ∈ cl.map Prod.fst, r c = r' c) : cl.holds r = cl.holds r' := by
  rw [Bool.eq_iff_iff]
  simp only [Clause.holds, List.all_eq_true]
  constructor
  · intro hh e he
    rw [← h e.1 (List.mem_map_of_mem _ he)]
    exact hh e he
  · intro hh e he
    rw [h e.1 (List.mem_map_of_mem _ he)]
    exact hh e he

theorem where_holds_congr (w : WhereObj) (r r' : Row)
    (h : ∀ c ∈ w.columns, r c = r' c) : w.holds r = w.holds r' := by
  have hentry : ∀ e ∈ w, e.holds r = e.holds r' := by
    intro e he
    cases e with
    | col name c =>
      have hc : name ∈ WhereObj.columns w := by
        simp only [WhereObj.columns, List.mem_flatMap]
        exact ⟨_, he, by simp⟩
      simp [Entry.holds, h name hc]
    | or alts =>
      have hcl : ∀ cl ∈ alts, cl.holds r = cl.holds r' := by
        intro cl hcl
        apply clause_holds_congr
        intro c hc
        apply h
        simp only [WhereObj.columns, List.mem_flatMap]
        exact ⟨_, he, by simp only [List.mem_flatMap]; exact ⟨cl, hcl, hc⟩⟩
      rw [Bool.eq_iff_iff]
      simp only [Entry.holds, List.any_eq_true]
      constructor
      · rintro ⟨cl, hmem, hh⟩
        exact ⟨cl, hmem, by rw [← hcl cl hmem]; exact hh⟩
      · rintro ⟨cl, hmem, hh⟩
        exact ⟨cl, hmem, by rw [hcl cl hmem]; exact hh⟩
  rw [Bool.eq_iff_iff]
  simp only [WhereObj.holds, List.all_eq_true]
  constructor
  · intro hh e he
    rw [← hentry e he]
    exact hh e he
  · intro hh e he
    rw [hentry e he]
    exact hh e he

theorem redact_apply (r : Row) (c : String) (hc : c ≠ "content") : redact r c = r c := by
  simp [redact, hc]

theorem precedes_redact (order : List (String × String))
    (ho : "content" ∉ order.map Prod.fst) (a b : Row) :
    precedes order (redact a) (redact b) = precedes order a b := by
  induction order with
  | nil => rfl
  | cons e rest ih =>
    obtain ⟨column, direction⟩ := e
    simp only [List.map_cons, List.mem_cons, not_or] at ho
    have hcol : column ≠ "content" := fun hc => ho.1 hc.symm
    simp only [precedes, redact_apply _ _ hcol, ih ho.2]

theorem insertRow_redact (order : List (String × String))
    (ho : "content" ∉ order.map Prod.fst) (r : Row) (rows : List Row) :
    insertRow order (redact r) (rows.map redact) = (insertRow order r rows).map redact := by
  induction rows with
  | nil => rfl
  | cons x xs ih =>
    simp only [List.map_cons, insertRow, precedes_redact order ho]
    split
    · rfl
    · simp [ih]

theorem sortRows_redact (order : List (String × String))
    (ho : "content" ∉ order.map Prod.fst) (rows : List Row) :
    sortRows order (rows.map redact) = (sortRows order rows).map redact := by
  induction rows with
  | nil => rfl
  | cons x xs ih =>
    simp only [sortRows, List.map_cons, List.foldr_cons] at ih ⊢
    rw [ih, insertRow_redact order ho]

theorem findAndCountAll_redact (t : Tables) (o : FindOptions)
    (hattr : "content" ∉ o.attributes) (hwhere : "content" ∉ o.whereClause.columns)
    (horder : "content" ∉ o.order.map Prod.fst) :
    findAndCountAll { documents := t.documents.map redact, users := t.users } o
      = findAndCountAll t o := by
  have hholds : ∀ r : Row, o.whereClause.holds (redact r) = o.whereClause.holds r := by
    intro r
    apply where_holds_congr
    intro c hc
    exact redact_apply r c fun h => hwhere (h ▸ hc)
  have hproj : ∀ r : Row, project o.attributes (redact r) = project o.attributes r := by
    intro r
    simp only [project]
    apply List.map_congr_left
    intro a ha
    rw [redact_apply r a fun h => hattr (h ▸ ha)]
  have hjoin : ∀ (m : String) (r : Row),
      joined { documents := t.documents.map redact, users := t.users } m (redact r)
        = joined t m r := by
    intro m r
    simp [joined, redact]
  have hfilter : (t.documents.map redact).filter (fun r => o.whereClause.holds r)
      = (t.documents.filter fun r => o.whereClause.holds r).map redact := by
    rw [List.filter_map]
    congr 1
    apply List.filter_congr
    intro r _
    exact hholds r
  simp only [findAndCountAll, hfilter, sortRows_redact o.order horder, List.length_map,
    ← List.map_drop, ← List.map_take, List.map_map]
  congr 1
  apply List.map_congr_left
  intro r _
  simp only [Function.comp, hproj, hjoin]

theorem map_redact_eq (rows rows' : List Row)
    (h : List.Forall₂ (fun r r' => ∀ c, c ≠ "content" → r c = r' c) rows rows') :
    rows.map redact = rows'.map redact := by
  induction h with
  | nil => rfl
  | cons hr _ ih =>
    simp only [List.map_cons, ih, List.cons.injEq, and_true]
    funext c
    by_cases hc : c = "content"
    · simp [redact, hc]
    · simp [redact, hc, hr c hc]

theorem listing_columns_lack_content (h : Helpers) (req : Req) :
    "content" ∉ (list h req).whereClause.columns
      ∧ "content" ∉ (search h req).whereClause.columns
      ∧ "content" ∉ (listByUserQuery h req).columns := by
  cases hadm : h.isAdminOrHigher req <;> cases hown : isOwner req <;>
    simp [list, listQuery, search, searchQuery, listByUserQuery, hadm, hown, WhereObj.columns]

theorem findAndCountAll_eq_of_agree (t t' : Tables) (o : FindOptions)
    (husers : t.users = t'.users)
    (hdocs : List.Forall₂ (fun r r' => ∀ c, c ≠ "content" → r c = r' c)
      t.documents t'.documents)
    (hattr : "content" ∉ o.attributes) (hwhere : "content" ∉ o.whereClause.columns)
    (horder : "content" ∉ o.order.map Prod.fst) :
    findAndCountAll t o = findAndCountAll t' o := by
  rw [← findAndCountAll_redact t o hattr hwhere horder,
    ← findAndCountAll_redact t' o hattr hwhere horder, map_redact_eq _ _ hdocs, husers]

theorem project_keys (attributes : List String) (row : Row) :
    (project attributes row).map Prod.fst = attributes := by
  simp [project, Function.comp_def]

theorem rows_lack_content (t : Tables) (o : FindOptions) (hattr : "content" ∉ o.attributes)
    (hincl : ∀ m ∈ o.includeModels, "content" ∉ m.2) :
    ∀ row ∈ (findAndCountAll t o).rows,
      "content" ∉ row.columns.map Prod.fst
        ∧ ∀ m columns, (m, some columns) ∈ row.included →
            "content" ∉ columns.map Prod.fst := by
  intro row hrow
  obtain ⟨d, -, -, hcols, hin⟩ := findAndCountAll_rows_mem t o row hrow
  refine ⟨by rw [hcols, project_keys]; exact hattr, ?_⟩
  intro m columns hmem
  rw [hin, List.mem_map] at hmem
  obtain ⟨mm, hmm, heq⟩ := hmem
  simp only [Prod.mk.injEq] at heq
  cases hj : joined t mm.1 d with
  | none => simp [hj] at heq
  | some u =>
    simp only [hj, Option.map_some', Option.some.injEq] at heq
    rw [← heq.2, project_keys]
    exact hincl mm hmm

/-- C12, as stated, fails in its closing clause: `create` answers with the same
`formatDoc` of the document as `retrieve`, so whatever `formatDoc` is, it cannot be that a
retrieval returns `content` while no `create` response does. -/
theorem content_not_only_in_retrieval :
    ¬ ∃ formatDoc : Row → List (String × Value),
        (∃ record, "content" ∈ (retrieve formatDoc record).body.map Prod.fst)
          ∧ ∀ document, "content" ∉ (createResponse formatDoc document).body.map Prod.fst := by
  rintro ⟨formatDoc, ⟨record, hrecord⟩, hcreate⟩
  exact hcreate record hrecord

/-- C12, amended: the projections of `list`, `search` and `listByUser` do not contain
`content`, no row of their responses carries it, and for every requester the three
responses are the same over two stores with the same users whose documents agree row by
row on every column but `content`. The responses that can carry `content` are those that
answer with `formatDoc` of one document: `retrieve`, and in the same way `create` and
`update`, which return it exactly when a retrieval of that document does. -/
theorem listings_ignore_content (h : Helpers) (req : Req)
    (lookup : Except String (Option User)) (t t' : Tables)
    (formatDoc : Row → List (String × Value)) (record : Row)
    (husers : t.users = t'.users)
    (hdocs : List.Forall₂ (fun r r' => ∀ c, c ≠ "content" → r c = r' c)
      t.documents t'.documents) :
    "content" ∉ (list h req).attributes
      ∧ "content" ∉ (search h req).attributes
      ∧ (∀ o, listByUser h req lookup = .findAndCountAll o → "content" ∉ o.attributes)
      ∧ listResponse h t req = listResponse h t' req
      ∧ searchResponse h t req = searchResponse h t' req
      ∧ listByUserResponse h t req lookup = listByUserResponse h t' req lookup
      ∧ (∀ status rows metadata,
          (listResponse h t req = .page status rows metadata
            ∨ searchResponse h t req = .page status rows metadata
            ∨ listByUserResponse h t req lookup = .page status rows metadata) →
          ∀ row ∈ rows,
            "content" ∉ row.columns.map Prod.fst
              ∧ ∀ m columns, (m, some columns) ∈ row.included →
                  "content" ∉ columns.map Prod.fst)
      ∧ retrieve formatDoc record = { status := 200, body := formatDoc record }
      ∧ createResponse formatDoc record = { status := 201, body := formatDoc record }
      ∧ updateResponse formatDoc record = { status := 200, body := formatDoc record }
      ∧ ("content" ∈ (createResponse formatDoc record).body.map Prod.fst
          ↔ "content" ∈ (retrieve formatDoc record).body.map Prod.fst)
      ∧ ("content" ∈ (updateResponse formatDoc record).body.map Prod.fst
          ↔ "content" ∈ (retrieve formatDoc record).body.map Prod.fst) := by
  obtain ⟨hl, hs, hu⟩ := listing_columns_lack_content h req
  have hbyUser : ∀ o, listByUser h req lookup = .findAndCountAll o →
      "content" ∉ o.attributes ∧ "content" ∉ o.whereClause.columns
        ∧ "content" ∉ o.order.map Prod.fst ∧ o.includeModels = [] := by
    intro o ho
    unfold listByUser at ho
    split at ho
    · cases ho
    · cases ho
    · split at ho
      · cases ho
      · cases ho
        exact ⟨by simp, hu, by simp, rfl⟩
  have hla : "content" ∉ (list h req).attributes := by simp [list]
  have hlo : "content" ∉ (list h req).order.map Prod.fst := by simp [list]
  have hli : ∀ m ∈ (list h req).includeModels, "content" ∉ m.2 := by simp [list]
  have hsa : "content" ∉ (search h req).attributes := by simp [search]
  have hso : "content" ∉ (search h req).order.map Prod.fst := by simp [search]
  have hsi : ∀ m ∈ (search h req).includeModels, "content" ∉ m.2 := by simp [search]
  refine ⟨hla, hsa, fun o ho => (hbyUser o ho).1, ?_, ?_, ?_, ?_, rfl, rfl, rfl, Iff.rfl,
    Iff.rfl⟩
  · simp only [listResponse, sendPage]
    rw [findAndCountAll_eq_of_agree t t' (list h req) husers hdocs hla hl hlo]
  · simp only [searchResponse, sendPage]
    rw [findAndCountAll_eq_of_agree t t' (search h req) husers hdocs hsa hs hso]
  · unfold listByUserResponse
    cases hout : listByUser h req lookup with
    | respond status message => rfl
    | findAndCountAll o =>
      obtain ⟨h1, h2, h3, -⟩ := hbyUser o hout
      simp only [sendPage]
      rw [findAndCountAll_eq_of_agree t t' o husers hdocs h1 h2 h3]
  · rintro status rows metadata (hpage | hpage | hpage)
    · simp only [listResponse, sendPage, Response.page.injEq] at hpage
      rw [← hpage.2.1]
      exact rows_lack_content t (list h req) hla hli
    · simp only [searchResponse, sendPage, Response.page.injEq] at hpage
      rw [← hpage.2.1]
      exact rows_lack_content t (search h req) hsa hsi
    · unfold listByUserResponse at hpage
      cases hout : listByUser h req lookup with
      | respond st message => simp [hout] at hpage
      | findAndCountAll o =>
        obtain ⟨h1, -, -, h4⟩ := hbyUser o hout
        simp only [hout, sendPage, Response.page.injEq] at hpage
        rw [← hpage.2.1]
        exact rows_lack_content t o h1 (by simp [h4])

/-- C12 at two stores whose one document differs in content alone: the regular requester
gets the same `list` response, one row, from both. -/
theorem listings_ignore_content_witness :
    listResponse rankHelpers (sampleTables "first draft") regularReq
        = listResponse rankHelpers (sampleTables "second draft") regularReq
      ∧ ∃ row metadata,
          listResponse rankHelpers (sampleTables "first draft") regularReq
            = .page 200 [row] metadata :=
  ⟨(listings_ignore_content rankHelpers regularReq (.ok none) (sampleTables "first draft")
      (sampleTables "second draft") (project ["id", "title", "content"]) publicRow rfl
      (List.Forall₂.cons (fun c hc => by simp [hc]) List.Forall₂.nil)).2.2.2.1,
    ⟨_, _, rfl⟩⟩

/-! ## Pagination metadata -/

theorem ceil_div_eq (a b : Nat) (hb : 0 < b) : ⌈(a : ℚ) / b⌉₊ = (a + b - 1) / b := by
  have hbq : (0 : ℚ) < b := by exact_mod_cast hb
  have hdm := Nat.div_add_mod (a + b - 1) b
  have hmod := Nat.mod_lt (a + b - 1) hb
  apply le_antisymm
  · rw [Nat.ceil_le, div_le_iff₀ hbq]
    have : a ≤ (a + b - 1) / b * b := by
      rw [Nat.mul_comm]
      omega
    exact_mod_cast this
  · rcases Nat.eq_zero_or_pos ((a + b - 1) / b) with h0 | hpos
    · rw [h0]
      exact Nat.zero_le _
    · have hlt : (a + b - 1) / b - 1 < ⌈(a : ℚ) / b⌉₊ := by
        rw [Nat.lt_ceil, lt_div_iff₀ hbq]
        have : ((a + b - 1) / b - 1) * b < a := by
          have hq : ((a + b - 1) / b - 1) * b = b * ((a + b - 1) / b) - b := by
            rw [Nat.sub_mul, Nat.one_mul, Nat.mul_comm]
          rw [hq]
          have hge : b ≤ b * ((a + b - 1) / b) := Nat.le_mul_of_pos_right b hpos
          omega
        exact_mod_cast this
      omega

/-- C13: for a positive limit the metadata is `currentPage = floor(offset / limit) + 1`,
`pageSize = limit`, `totalCount` the row count and `totalPages = ceil(totalCount / limit)`;
with no rows `totalPages` is 0 and `currentPage` is still `floor(offset / limit) + 1`; 57
rows at limit 20 give page 1 of 3 at offset 0 and page 3 at offset 40. The responses of
`list`, `search` and `listByUser` carry this metadata for the count of matching rows and
the limit and offset of the request. -/
theorem getMetadata_formula (totalCount limit offset : Nat) (hlimit : 0 < limit)
    (h : Helpers) (t : Tables) (req : Req) :
    (getMetadata totalCount limit offset).currentPage = ⌊(offset : ℚ) / limit⌋₊ + 1
      ∧ (getMetadata totalCount limit offset).pageSize = limit
      ∧ (getMetadata totalCount limit offset).totalCount = totalCount
      ∧ (getMetadata totalCount limit offset).totalPages = ⌈(totalCount : ℚ) / limit⌉₊
      ∧ (getMetadata 0 limit offset).totalPages = 0
      ∧ (getMetadata 0 limit offset).currentPage = ⌊(offset : ℚ) / limit⌋₊ + 1
      ∧ getMetadata 57 20 0 = { currentPage := 1, pageSize := 20, totalCount := 57, totalPages := 3 }
      ∧ (getMetadata 57 20 40).currentPage = 3
      ∧ (∃ rows, listResponse h t req
          = .page 200 rows
              (getMetadata (t.documents.filter fun r => (list h req).whereClause.holds r).length
                req.listOptions.limit req.listOptions.offset))
      ∧ (∃ rows, searchResponse h t req
          = .page 200 rows
              (getMetadata (t.documents.filter fun r => (search h req).whereClause.holds r).length
                req.listOptions.limit req.listOptions.offset))
      ∧ (∀ lookup o, listByUser h req lookup = .findAndCountAll o →
          ∃ rows, listByUserResponse h t req lookup
            = .page 200 rows
                (getMetadata (t.documents.filter fun r => (listByUserQuery h req).holds r).length
                  req.listOptions.limit req.listOptions.offset)) := by
  refine ⟨?_, rfl, rfl, ?_, ?_, ?_, by decide, by decide, ⟨_, rfl⟩, ⟨_, rfl⟩, ?_⟩
  · simp [getMetadata, Nat.floor_div_eq_div]
  · simp only [getMetadata]
    exact (ceil_div_eq totalCount limit hlimit).symm
  · simp only [getMetadata, Nat.zero_add]
    exact Nat.div_eq_of_lt (by omega)
  · simp [getMetadata, Nat.floor_div_eq_div]
  · intro lookup o ho
    have hw : o.whereClause = listByUserQuery h req := by
      unfold listByUser at ho
      split at ho
      · cases ho
      · cases ho
      · split at ho
        · cases ho
        · cases ho
          rfl
    simp only [listByUserResponse, ho, sendPage, findAndCountAll, hw]
    exact ⟨_, rfl⟩

/-- C13 at 57 rows, limit 20 and offset 40: page 3 of 3. -/
theorem getMetadata_formula_witness :
    (getMetadata 57 20 40).currentPage = ⌊((40 : Nat) : ℚ) / (20 : Nat)⌋₊ + 1
      ∧ (getMetadata 57 20 40).totalPages = ⌈((57 : Nat) : ℚ) / (20 : Nat)⌉₊
      ∧ getMetadata 57 20 40
        = { currentPage := 3, pageSize := 20, totalCount := 57, totalPages := 3 } :=
  ⟨(getMetadata_formula 57 20 40 (by decide) rankHelpers (sampleTables "") regularReq).1,
    (getMetadata_formula 57 20 40 (by decide) rankHelpers (sampleTables "") regularReq).2.2.2.1,
    by decide⟩

/-! ## Routing of document searches -/

theorem removeWhiteSpace_ne_empty (keywords : String) :
    removeWhiteSpace keywords ≠ "" ↔ ∃ c ∈ keywords.toList, isWhiteSpace c = false := by
  have hmk : ∀ l : List Char, String.mk l ≠ "" ↔ l ≠ [] := by
    intro l
    constructor
    · intro h hl
      exact h (by rw [hl])
    · intro h hs
      exact h (by
        have := congrArg String.data hs
        simpa using this)
  rw [removeWhiteSpace, hmk, ne_eq, List.filter_eq_nil_iff]
  simp

theorem removeWhiteSpace_eq_empty (keywords : String) :
    removeWhiteSpace keywords = "" ↔ ∀ c ∈ keywords.toList, isWhiteSpace c = true := by
  constructor
  · intro h c hc
    by_contra hne
    exact (removeWhiteSpace_ne_empty keywords).mpr ⟨c, hc, by simpa using hne⟩ h
  · intro h
    by_contra hne
    obtain ⟨c, hc, hf⟩ := (removeWhiteSpace_ne_empty keywords).mp hne
    rw [h c hc] at hf
    exact Bool.noConfusion hf

theorem onDocumentSearchChange_calls (s : MainState) (value : String) :
    (onDocumentSearchChange s value).2
      = [if removeWhiteSpace value ≠ "" then FeedCall.searchDocuments value none
         else FeedCall.getAllDocuments none] := by
  simp only [onDocumentSearchChange]
  split <;> simp_all

theorem refreshFeeds_shape (props : MainProps) (s : MainState) :
    ∃ p₀ p₁ p₂, refreshFeeds props s
      = [FeedCall.getUserDocuments props.ownId p₀,
         if removeWhiteSpace s.documentKeywords ≠ "" then
           FeedCall.searchDocuments s.documentKeywords p₁
         else FeedCall.getAllDocuments p₁,
         if removeWhiteSpace s.userKeywords ≠ "" then FeedCall.searchUsers s.userKeywords p₂
         else FeedCall.getAllUsers p₂] := by
  unfold refreshFeeds
  cases (props.self.bind fun u => u.documents).bind fun f => f.metadata <;>
    cases s.documents.bind fun f => f.metadata <;>
    cases s.users.bind fun f => f.metadata <;>
    exact ⟨_, _, _, by simp only []; split_ifs <;> rfl⟩

/-- C14: `onDocumentSearchChange` and `refreshFeeds` call `searchDocuments` iff the
keywords have a character that is not white space, and otherwise call `getAllDocuments`;
the empty string and white-space-only strings go to `getAllDocuments`. -/
theorem search_called_iff_not_blank (props : MainProps) (s : MainState) (value : String) :
    ((onDocumentSearchChange s value).2 = [.searchDocuments value none]
        ↔ ∃ c ∈ value.toList, isWhiteSpace c = false)
      ∧ ((onDocumentSearchChange s value).2 = [.getAllDocuments none]
        ↔ ∀ c ∈ value.toList, isWhiteSpace c = true)
      ∧ ((∃ paging, FeedCall.searchDocuments s.documentKeywords paging ∈ refreshFeeds props s)
        ↔ ∃ c ∈ s.documentKeywords.toList, isWhiteSpace c = false)
      ∧ ((∃ paging, FeedCall.getAllDocuments paging ∈ refreshFeeds props s)
        ↔ ∀ c ∈ s.documentKeywords.toList, isWhiteSpace c = true)
      ∧ (∀ keywords paging, FeedCall.searchDocuments keywords paging ∈ refreshFeeds props s →
          keywords = s.documentKeywords)
      ∧ (onDocumentSearchChange s "").2 = [.getAllDocuments none] := by
  obtain ⟨p₀, p₁, p₂, hshape⟩ := refreshFeeds_shape props s
  rw [hshape, onDocumentSearchChange_calls, onDocumentSearchChange_calls,
    ← removeWhiteSpace_ne_empty, ← removeWhiteSpace_eq_empty, ← removeWhiteSpace_ne_empty,
    ← removeWhiteSpace_eq_empty]
  refine ⟨?_, ?_, ?_, ?_, ?_, by decide⟩
  · by_cases hb : removeWhiteSpace value = "" <;> simp [hb]
  · by_cases hb : removeWhiteSpace value = "" <;> simp [hb]
  · by_cases hb : removeWhiteSpace s.documentKeywords = "" <;>
      by_cases hu : removeWhiteSpace s.userKeywords = "" <;> simp [hb, hu]
  · by_cases hb : removeWhiteSpace s.documentKeywords = "" <;>
      by_cases hu : removeWhiteSpace s.userKeywords = "" <;> simp [hb, hu]
  · intro keywords paging
    by_cases hb : removeWhiteSpace s.documentKeywords = "" <;>
      by_cases hu : removeWhiteSpace s.userKeywords = "" <;> simp [hb, hu]
    all_goals
      intro h _
      exact h

/-- C14 at a keyword string of blanks and a tab, and at one with a letter. -/
theorem search_called_iff_not_blank_witness :
    (onDocumentSearchChange (feedState "" (getMetadata 0 20 0)) " \t ").2
        = [.getAllDocuments none]
      ∧ (onDocumentSearchChange (feedState "" (getMetadata 0 20 0)) " a ").2
        = [.searchDocuments " a " none] :=
  ⟨(search_called_iff_not_blank sampleProps (feedState "" (getMetadata 0 20 0)) " \t ").2.1.mpr
      (by decide),
    (search_called_iff_not_blank sampleProps (feedState "" (getMetadata 0 20 0)) " a ").1.mpr
      (by decide)⟩

/-! ## The window `refreshFeeds` asks for again -/

/-- C15, as stated, fails: with the metadata computed for limit 20 and offset 30,
`refreshFeeds` asks for limit 20 and offset 20, not offset 30. -/
theorem refreshFeeds_offset_not_kept :
    FeedCall.getAllDocuments (some (20, 20))
        ∈ refreshFeeds sampleProps (feedState "" (getMetadata 57 20 30))
      ∧ FeedCall.getAllDocuments (some (20, 30))
        ∉ refreshFeeds sampleProps (feedState "" (getMetadata 57 20 30)) := by
  decide

theorem roundToDouble_of_lt (n : Nat) (h : n < 2 ^ 53) : roundToDouble (n : Int) = n := by
  have hk : excessBits 1024 n = 0 := by
    show excessBits (1023 + 1) n = 0
    rw [excessBits, if_pos h]
  simp [roundToDouble, hk, Nat.mod_one]

theorem window_offset (limit offset : Nat) (hsafe : offset < 2 ^ 53) :
    jsMul (jsSub ((offset / limit + 1 : Nat) : Int) 1) (limit : Int)
      = ((offset / limit * limit : Nat) : Int) := by
  have hle : offset / limit * limit ≤ offset := Nat.div_mul_le_self offset limit
  have hdiv : offset / limit ≤ offset := Nat.div_le_self offset limit
  have hsub : jsSub ((offset / limit + 1 : Nat) : Int) 1 = ((offset / limit : Nat) : Int) := by
    have : ((offset / limit + 1 : Nat) : Int) - 1 = ((offset / limit : Nat) : Int) := by
      push_cast
      ring
    rw [jsSub, this]
    exact roundToDouble_of_lt _ (by omega)
  have hmul : ((offset / limit : Nat) : Int) * (limit : Int)
      = ((offset / limit * limit : Nat) : Int) := by
    push_cast
    ring
  rw [hsub, jsMul, hmul]
  exact roundToDouble_of_lt _ (by omega)

/-- Beyond 53 bits the product is rounded: with the metadata of limit 94906267 and offset
9007199515875290 the offset asked for again is 9007199515875288, where the page starts at
9007199515875289. -/
theorem refreshFeeds_rounds_large_offset :
    FeedCall.getAllDocuments (some (94906267, 9007199515875288))
      ∈ refreshFeeds sampleProps (feedState "" (getMetadata 0 94906267 9007199515875290)) := by
  decide

/-- C15, amended: when a feed's metadata has `currentPage = floor(offset / limit) + 1` and
`pageSize = limit` for a positive limit and an offset below 2 ^ 53, `refreshFeeds` asks
again for the limit `limit` and the offset `floor(offset / limit) * limit`, the first
offset of the current page: it is at most the original offset, equals it iff `limit`
divides `offset`, and lies on the same page. -/
theorem refreshFeeds_asks_page_start (props : MainProps) (s : MainState) (m : Metadata)
    (limit offset : Nat) (hlimit : 0 < limit) (hsafe : offset < 2 ^ 53)
    (hpage : m.currentPage = offset / limit + 1) (hsize : m.pageSize = limit) :
    (s.documents = some { metadata := some m } →
        ∃ own users, refreshFeeds props s
          = [own,
             if removeWhiteSpace s.documentKeywords ≠ "" then
               FeedCall.searchDocuments s.documentKeywords
                 (some ((limit : Int), ((offset / limit * limit : Nat) : Int)))
             else
               FeedCall.getAllDocuments
                 (some ((limit : Int), ((offset / limit * limit : Nat) : Int))),
             users])
      ∧ (s.users = some { metadata := some m } →
        ∃ own documents, refreshFeeds props s
          = [own, documents,
             if removeWhiteSpace s.userKeywords ≠ "" then
               FeedCall.searchUsers s.userKeywords
                 (some ((limit : Int), ((offset / limit * limit : Nat) : Int)))
             else
               FeedCall.getAllUsers
                 (some ((limit : Int), ((offset / limit * limit : Nat) : Int)))])
      ∧ (props.self = some { documents := some { metadata := some m } } →
        ∃ documents users, refreshFeeds props s
          = [FeedCall.getUserDocuments props.ownId
               (some ((limit : Int), ((offset / limit * limit : Nat) : Int))),
             documents, users])
      ∧ offset / limit * limit ≤ offset
      ∧ (offset / limit * limit = offset ↔ limit ∣ offset)
      ∧ offset / limit * limit / limit + 1 = m.currentPage := by
  have hw := window_offset limit offset hsafe
  refine ⟨?_, ?_, ?_, Nat.div_mul_le_self offset limit, ?_, ?_⟩
  · intro hs
    simp only [refreshFeeds, hs, Option.bind, hpage, hsize, hw]
    exact ⟨_, _, rfl⟩
  · intro hs
    simp only [refreshFeeds, hs, Option.bind, hpage, hsize, hw]
    exact ⟨_, _, rfl⟩
  · intro hs
    simp only [refreshFeeds, hs, Option.bind, hpage, hsize, hw]
    exact ⟨_, _, rfl⟩
  · constructor
    · intro h
      exact ⟨offset / limit, by rw [Nat.mul_comm]; exact h.symm⟩
    · intro h
      exact Nat.div_mul_cancel h
  · rw [hpage, Nat.mul_div_cancel _ hlimit]

/-- C15 at limit 20 and offset 40, a multiple of the limit: the window asked for again is
the original one. -/
theorem refreshFeeds_asks_page_start_witness :
    FeedCall.getAllDocuments (some (20, 40))
      ∈ refreshFeeds sampleProps (feedState "" (getMetadata 57 20 40)) := by
  obtain ⟨own, users, h⟩ :=
    (refreshFeeds_asks_page_start sampleProps (feedState "" (getMetadata 57 20 40))
      (getMetadata 57 20 40) 20 40 (by decide) (by decide) rfl rfl).1 rfl
  rw [h]
  simp [feedState, removeWhiteSpace]

/-! ## Repeated flushes -/

theorem saveChanges_not_dirty (lib : Lib) (e : DocumentEditor) :
    dirty (saveChanges lib e).1 = false := by
  unfold saveChanges
  cases hd : dirty e
  · simpa using hd
  · simp [dirty, Delta.length]

/-- C16: a `saveChanges` that issues a call leaves `initialState` equal to the current
attributes, which it does not touch, and `contentChanges` of length 0, with no response
involved; and a second `saveChanges` right after any first one issues no call and leaves
the instance as it is. -/
theorem saveChanges_idempotent (lib : Lib) (e : DocumentEditor) :
    ((saveChanges lib e).2 ≠ [] →
        (saveChanges lib e).1.initialState = (saveChanges lib e).1.attributes
          ∧ (saveChanges lib e).1.attributes = e.attributes
          ∧ (saveChanges lib e).1.contentChanges.length = 0)
      ∧ saveChanges lib (saveChanges lib e).1 = ((saveChanges lib e).1, []) := by
  constructor
  · intro hcall
    unfold saveChanges at hcall ⊢
    cases hd : dirty e
    · simp [hd] at hcall
    · simp [Delta.length]
  · have hclean := saveChanges_not_dirty lib e
    generalize (saveChanges lib e).1 = e' at hclean
    simp [saveChanges, hclean]

/-- C16 at the new editor with a title and a content change: the flush issues a call, and
a second flush issues none. -/
theorem saveChanges_idempotent_witness :
    (saveChanges sampleLib draftEditor).1.initialState = draftEditor.attributes
      ∧ (saveChanges sampleLib (saveChanges sampleLib draftEditor).1).2 = [] :=
  ⟨((saveChanges_idempotent sampleLib draftEditor).1 (by decide)).1.trans
      ((saveChanges_idempotent sampleLib draftEditor).1 (by decide)).2.1,
    by rw [(saveChanges_idempotent sampleLib draftEditor).2]⟩

/-- C17, as stated, fails: the new editor flushes (a create is issued), no props update
arrives, the title is changed and the timer ticks again: a second `createDocument` is
issued. -/
theorem second_create_issued :
    (run sampleLib draftEditor [.tick, .titleChange "Plan", .tick]).2
      = [Call.createDocument
          { title := "Notes", content := "hello", type := "quill", access := "private",
            accesslevel := "view" },
         Call.createDocument
          { title := "Plan", content := "hello", type := "quill", access := "private",
            accesslevel := "view" }] := by
  decide

theorem step_calls_unassigned (lib : Lib) (e : DocumentEditor) (hid : e.id = "") (ev : Event) :
    ∀ c ∈ (step lib e ev).2, ∃ d, c = Call.createDocument d := by
  intro c hc
  cases ev with
  | receiveProps p =>
    simp only [step] at hc
    split at hc <;> simp at hc
  | titleChange value => simp [step] at hc
  | attributeChange name value => simp [step] at hc
  | textChange delta => simp [step] at hc
  | tick =>
    simp only [step, saveChanges] at hc
    split at hc
    · simp only [hid, if_true, List.mem_singleton] at hc
      exact ⟨_, hc⟩
    · simp at hc

theorem run_unassigned (lib : Lib) (events : List Event) :
    ∀ e : DocumentEditor, (run lib e events).1.id = "" →
      e.id = "" ∧ ∀ c ∈ (run lib e events).2, ∃ d, c = Call.createDocument d := by
  induction events with
  | nil =>
    intro e hfinal
    exact ⟨hfinal, by simp [run]⟩
  | cons ev rest ih =>
    intro e hfinal
    obtain ⟨hmid, hrest⟩ := ih (step lib e ev).1 hfinal
    have hid : e.id = "" := by
      by_contra hne
      exact hne ((step_keeps_id lib e hne ev).1.symm.trans hmid)
    refine ⟨hid, ?_⟩
    intro c hc
    simp only [run, List.mem_append] at hc
    rcases hc with hc | hc
    · exact step_calls_unassigned lib e hid ev c hc
    · exact hrest c hc

theorem run_unassigned_of_props_without_id (lib : Lib) (events : List Event)
    (hev : ∀ p, Event.receiveProps p ∈ events → p.newDocument.id = "") :
    ∀ e : DocumentEditor, e.id = "" → (run lib e events).1.id = "" := by
  induction events with
  | nil => intro e hid; exact hid
  | cons ev rest ih =>
    intro e hid
    have hstep : (step lib e ev).1.id = "" := by
      cases ev with
      | receiveProps p =>
        have hp := hev p (List.mem_cons_self _ _)
        simp only [step]
        cases hr : componentWillReceiveProps lib e p with
        | error _ => exact hid
        | ok e' =>
          rcases componentWillReceiveProps_id lib e e' p hr with h | ⟨_, hne, _⟩
          · exact h.trans hid
          · exact absurd hp hne
      | titleChange value => simpa [step, onTitleChange] using hid
      | attributeChange name value => cases name <;> simpa [step, updateAttribute] using hid
      | textChange delta => simpa [step, onTextChange] using hid
      | tick => rw [step, saveChanges_id, hid]
    exact ih (fun p hp => hev p (List.mem_cons_of_mem _ hp)) _ hstep

/-- C17, amended: take an editor without id and flush it (a dirty one issues
`createDocument`). Whatever props updates, edits and ticks follow, as long as no props
update has assigned an id, every call issued is `createDocument`, and the next tick issues
one more `createDocument`, with the current attributes and full contents, whenever the
editor is dirty, and nothing only when it is clean. -/
theorem create_repeats_without_id (lib : Lib) (e : DocumentEditor) (hid : e.id = "")
    (events : List Event) (hnone : (run lib (saveChanges lib e).1 events).1.id = "") :
    (dirty e = true →
        (saveChanges lib e).2
          = [Call.createDocument
              { title := e.attributes.title
                content := lib.stringify e.contents
                type := "quill"
                access := e.attributes.access
                accesslevel := e.attributes.accesslevel }])
      ∧ (∀ c ∈ (run lib (saveChanges lib e).1 events).2, ∃ d, c = Call.createDocument d)
      ∧ (dirty (run lib (saveChanges lib e).1 events).1 = true →
          (saveChanges lib (run lib (saveChanges lib e).1 events).1).2
            = [Call.createDocument
                { title := (run lib (saveChanges lib e).1 events).1.attributes.title
                  content := lib.stringify (run lib (saveChanges lib e).1 events).1.contents
                  type := "quill"
                  access := (run lib (saveChanges lib e).1 events).1.attributes.access
                  accesslevel :=
                    (run lib (saveChanges lib e).1 events).1.attributes.accesslevel }])
      ∧ (dirty (run lib (saveChanges lib e).1 events).1 = false →
          (saveChanges lib (run lib (saveChanges lib e).1 events).1).2 = []) := by
  obtain ⟨-, h2⟩ := run_unassigned lib events (saveChanges lib e).1 hnone
  refine ⟨?_, h2, ?_, ?_⟩
  · intro hd
    simp [saveChanges, hd, hid]
  · generalize (run lib (saveChanges lib e).1 events).1 = e₂ at hnone
    intro hd
    simp [saveChanges, hd, hnone]
  · generalize (run lib (saveChanges lib e).1 events).1 = e₂
    intro hd
    simp [saveChanges, hd]

/-- C17 at the new editor: after the first flush, a props update that carries no id and a
change of title, the next tick issues a second `createDocument`. -/
theorem create_repeats_without_id_witness :
    (saveChanges sampleLib
        (run sampleLib (saveChanges sampleLib draftEditor).1
          [.receiveProps noIdProps, .titleChange "Plan"]).1).2
      = [Call.createDocument
          { title := "Plan", content := "hello", type := "quill", access := "private",
            accesslevel := "view" }] := by
  rw [(create_repeats_without_id sampleLib draftEditor rfl
    [.receiveProps noIdProps, .titleChange "Plan"] (by decide)).2.2.1 (by decide)]
  decide

/-! ## The owner of a created document -/

/-- C18: `create` hands the store the keys title, content, access, accesslevel and userId;
userId is the decoded requester id whatever the body holds, so two requests with the same
decoded id pass the same userId, and two bodies that agree on title, content, access and
accesslevel give the same object. -/
theorem create_owner_is_requester (req req' : Req) (body body' : Body)
    (hid : req.decoded.id = req'.decoded.id) :
    (create req body).map Prod.fst = ["title", "content", "access", "accesslevel", "userId"]
      ∧ (create req body).lookup "userId" = some (.str req.decoded.id)
      ∧ (create req body).lookup "userId" = (create req' body').lookup "userId"
      ∧ ((∀ f ∈ ["title", "content", "access", "accesslevel"], body f = body' f) →
          create req body = create req' body') := by
  refine ⟨rfl, by simp [create, List.lookup], by simp [create, List.lookup, hid], ?_⟩
  intro hb
  simp only [List.mem_cons, List.mem_singleton, List.not_mem_nil, or_false, forall_eq_or_imp,
    forall_eq] at hb
  obtain ⟨h1, h2, h3, h4⟩ := hb
  simp [create, h1, h2, h3, h4, hid]

/-- C18 at two requests of `u1`, one of whose bodies adds a `userId` and an `id`: the same
object, owned by `u1`, goes to the store. -/
theorem create_owner_is_requester_witness :
    create regularReq forgedBody = create regularReq plainBody
      ∧ (create regularReq forgedBody).lookup "userId" = some (.str "u1") :=
  ⟨(create_owner_is_requester regularReq regularReq forgedBody plainBody rfl).2.2.2
      (by decide),
    (create_owner_is_requester regularReq regularReq forgedBody plainBody rfl).2.1⟩

end LibreDms
